import Mathlib

/-!
Shallow embedding of the beefy-cowllector strategy syncer
(`src/scripts/syncStrats.ts`) together with the per-chain configuration
table (`src/data/chains.js`).

Modelling conventions, each justified by the source:
* The shared mutable array `stratsToHarvest` is a `List (Option IStratToHrvst)`:
  `delete stratsToHarvest[index]` leaves a hole (`none`), and the final
  write filters the holes out (`strat => strat`).
* `Hits.hits` is a JS plain object keyed by id, which preserves insertion
  order for string keys; it is embedded as an insertion-ordered association
  list.  `Hits.add` returns early on a falsy id (the empty string).
* `strat?.noOnChainHrvst` is an optional boolean; JS truthiness of
  `undefined`/`false` is `false`, embedded as `Option Bool` with
  `truthy o = o.getD false`.
* Each chain entry of `chains.js` has no `hasOnChainHarvesting` property,
  so on every configured chain the field reads as `undefined` (falsy);
  the deny list is only loaded (`require`) when that flag is truthy.
* `main` launches one async closure per chain, but each closure runs
  `SyncVaults` synchronously before its first `await`, so the vault
  sync passes execute sequentially in chain order: a sequential fold is
  the faithful embedding.  `Object.values(chains)` enumerates the
  numeric-string keys of `chains.js` in ascending numeric order.
* `estimateGas` (in `utils/harvestHelpers`, outside this repository) is an
  opaque network call; `AddGasLimits` only contributes a boolean "any
  estimation succeeded" signal that is OR-ed into the coordinator's dirty
  flag when the chain's off-chain worklist is non-empty.  It is embedded
  as an oracle `gasOk : IChain → Bool`; it does not touch the fields of
  the strategy list that this development models.
-/

namespace Cowllector

/-- A vault record from the remote catalog (interface `IVault`). -/
structure IVault where
  id : String
  chain : String
  earnContractAddress : String
  earnedToken : String
  strategy : String
  status : String
  lastHarvest : Int
deriving DecidableEq, Repr

/-- A persisted strategy entry (interface `IStratToHrvst`).  The
`noOnChainHrvst` field is optional in the JSON file: `none` models the
absent/undefined field. -/
structure IStratToHrvst where
  id : String
  chain : String
  earnContractAddress : String
  earnedToken : String
  strategy : String
  lastHarvest : Int
  noOnChainHrvst : Option Bool
deriving DecidableEq, Repr

/-- Per-chain static configuration (interface `IChain` restricted to the
fields `syncStrats.ts` reads).  `denyList` stands for the per-chain
`vaultDenyList` module that the `ChainStratManager` constructor requires
when `hasOnChainHarvesting` is truthy. -/
structure IChain where
  id : String
  chainId : Nat
  hasOnChainHarvesting : Bool
  denyList : List String
deriving DecidableEq, Repr

/-- JS truthiness of the optional `noOnChainHrvst` field:
`undefined` and `false` are falsy. -/
def truthy (o : Option Bool) : Bool := o.getD false

/-- The test `['eol', 'paused'].includes(vault.status)`. -/
def isInactiveStatus (s : String) : Bool := s == "eol" || s == "paused"

/-- The routing eligibility computed at `syncStrats.ts:103`:
`this.chain.hasOnChainHarvesting && !this.denyOnChainHarvest?.has(vault.earnedToken)`.
The deny set is only loaded when `hasOnChainHarvesting` is truthy, and the
conjunction short-circuits, so the null case never reaches the lookup. -/
def onChainHarvest (c : IChain) (tok : String) : Bool :=
  c.hasOnChainHarvesting && !(c.denyList.contains tok)

/-- The change kinds of the hit log (type `HitType`). -/
inductive HitType where
  | added
  | removedInactive
  | removedDecomissioned
  | onChainHarvestSwitch
  | strategyUpdate
deriving DecidableEq, Repr

/-- The `type` field of a `Hit`: a scalar on first occurrence, upgraded to
an ordered array on the second. -/
inductive HitTypes where
  | one (t : HitType)
  | many (ts : List HitType)
deriving DecidableEq, Repr

/-- The else-branches of `Hits.add`: a scalar becomes a two-element array,
an array gets the new kind pushed at the end. -/
def upgradeHit : HitTypes → HitType → HitTypes
  | HitTypes.one t0, t => HitTypes.many [t0, t]
  | HitTypes.many ts, t => HitTypes.many (ts ++ [t])

/-- `Hits.add` (`syncStrats.ts:38`): returns early on a falsy id; appends a
fresh scalar record for an unseen id; otherwise merges into the existing
record for that id. -/
def hitsAdd (h : List (String × HitTypes)) (id : String) (t : HitType) :
    List (String × HitTypes) :=
  if id = "" then h
  else if h.any (fun p => p.1 == id) then
    h.map (fun p => if p.1 == id then (p.1, upgradeHit p.2 t) else p)
  else h ++ [(id, HitTypes.one t)]

/-- `Set.add` on the shared encountered-id set: idempotent insertion
preserving insertion order. -/
def addId (enc : List String) (id : String) : List String :=
  if id ∈ enc then enc else enc ++ [id]

/-- The `findIndex` call at `syncStrats.ts:77`, returning the index and the
matched entry: a hole (`strat` undefined) never matches because
`vault.strategy === strat?.strategy` is false when the right side is
undefined. -/
def findStrat (v : IVault) : List (Option IStratToHrvst) → Option (Nat × IStratToHrvst)
  | [] => none
  | none :: rest => (findStrat v rest).map (fun p => (p.1 + 1, p.2))
  | some s :: rest =>
      if v.strategy == s.strategy && v.id == s.id then some (0, s)
      else (findStrat v rest).map (fun p => (p.1 + 1, p.2))

/-- The mutable state visible to one `ChainStratManager` pass: the shared
strategy array (with holes), the shared encountered set and hit log, the
per-pass `dirty` flag and `added`/`removed` counters, and the per-pass
off-chain worklist `notOnChainHarvest`. -/
structure SyncState where
  strats : List (Option IStratToHrvst)
  encountered : List String
  hits : List (String × HitTypes)
  dirty : Bool
  added : Nat
  removed : Nat
  notOCH : List IStratToHrvst
deriving DecidableEq, Repr

/-- The entry pushed at `syncStrats.ts:84-89`, built from the vault's
current fields; `noOnChainHrvst` is not among them (absent). -/
def newEntry (v : IVault) : IStratToHrvst :=
  { id := v.id, chain := v.chain, earnContractAddress := v.earnContractAddress,
    earnedToken := v.earnedToken, strategy := v.strategy,
    lastHarvest := v.lastHarvest, noOnChainHrvst := none }

/-- The guard at `syncStrats.ts:106-107`:
`onChainHarvest ? strat?.noOnChainHrvst : this.chain.hasOnChainHarvesting && !strat?.noOnChainHrvst`. -/
def routeFlagHit (chain : IChain) (onChain : Bool) (flag : Option Bool) : Bool :=
  if onChain then truthy flag else chain.hasOnChainHarvesting && !(truthy flag)

/-- The net effect of the three conditional in-place writes a matched
active vault performs on its entry (`syncStrats.ts:106-132`), with the
three guards recorded: the routing-flag switch, the strategy upgrade, and
the lastHarvest bump.  `strat1` is the entry's value at `syncStrats.ts:117`
when it is pushed onto the off-chain worklist. -/
structure FoundUpdate where
  strat : IStratToHrvst
  strat1 : IStratToHrvst
  flagHit : Bool
  stratHit : Bool
  lhHit : Bool
deriving DecidableEq, Repr

/-- The value a newly created entry holds at the end of its vault's
iteration: pushed from the vault's fields (`syncStrats.ts:84-89`), then
the routing flag is set in place, silently, when the guard fires with the
absent flag (`syncStrats.ts:106-113`, `index == NOT_FOUND` arm). -/
def pushedEntry (chain : IChain) (v : IVault) : IStratToHrvst :=
  let onChain := onChainHarvest chain v.earnedToken
  let s0 := newEntry v
  let flagHit := routeFlagHit chain onChain s0.noOnChainHrvst
  if flagHit then { s0 with noOnChainHrvst := some (!onChain) } else s0

/-- Computes the writes of `syncStrats.ts:106-132` on a matched entry. -/
def foundUpdate (chain : IChain) (v : IVault) (s : IStratToHrvst) : FoundUpdate :=
  let onChain := onChainHarvest chain v.earnedToken
  let flagHit := routeFlagHit chain onChain s.noOnChainHrvst
  let s1 := if flagHit then { s with noOnChainHrvst := some (!onChain) } else s
  let stratHit := !(s1.strategy == v.strategy)
  let s2 := if stratHit then { s1 with strategy := v.strategy } else s1
  let lhHit := decide (s2.lastHarvest < v.lastHarvest)
  let s3 := if lhHit then { s2 with lastHarvest := v.lastHarvest } else s2
  { strat := s3, strat1 := s1, flagHit := flagHit, stratHit := stratHit, lhHit := lhHit }

/-- One iteration of the `vaults.forEach` body of `SyncVaults`
(`syncStrats.ts:73-133`), as a pure state transformer.  The conditional
writes of the source (flag switch, strategy upgrade, lastHarvest bump) are
merged into a single `List.set` performed exactly when at least one of the
guards fired, which is observationally the mutation the source performs on
the array slot. -/
def syncVault (chain : IChain) (st : SyncState) (v : IVault) : SyncState :=
  if v.chain ≠ chain.id then st else
  match findStrat v st.strats with
  | none =>
      if isInactiveStatus v.status then st else
      let onChain := onChainHarvest chain v.earnedToken
      let s1 := pushedEntry chain v
      { strats := st.strats ++ [some s1],
        encountered := addId st.encountered v.id,
        hits := hitsAdd st.hits v.id HitType.added,
        dirty := true,
        added := st.added + 1,
        removed := st.removed,
        notOCH := if !onChain then st.notOCH ++ [s1] else st.notOCH }
  | some (i, s) =>
      if isInactiveStatus v.status then
        { strats := st.strats.set i none,
          encountered := st.encountered,
          hits := hitsAdd st.hits v.id HitType.removedInactive,
          dirty := true,
          added := st.added,
          removed := st.removed + 1,
          notOCH := st.notOCH }
      else
        let onChain := onChainHarvest chain v.earnedToken
        let u := foundUpdate chain v s
        let hit := u.flagHit || u.stratHit || u.lhHit
        let h1 := if u.flagHit then hitsAdd st.hits v.id HitType.onChainHarvestSwitch
                  else st.hits
        let h2 := if u.stratHit then hitsAdd h1 v.id HitType.strategyUpdate else h1
        { strats := if hit then st.strats.set i (some u.strat) else st.strats,
          encountered := addId st.encountered v.id,
          hits := h2,
          dirty := st.dirty || hit,
          added := st.added,
          removed := st.removed,
          notOCH := if !onChain then st.notOCH ++ [u.strat1] else st.notOCH }

/-- `ChainStratManager.SyncVaults`: the fold of `syncVault` over the
catalog, in catalog order.  The returned state's `dirty` field is the
function's boolean result when started with `dirty = false`. -/
def SyncVaults (chain : IChain) (vaults : List IVault) (st : SyncState) : SyncState :=
  vaults.foldl (syncVault chain) st

/-- Ghost observation for the frame claim: whether some step of the pass
changed the strategy array. -/
def syncMutates (chain : IChain) : SyncState → List IVault → Bool
  | _, [] => false
  | st, v :: vs =>
      !(decide ((syncVault chain st v).strats = st.strats)) ||
        syncMutates chain (syncVault chain st v) vs

/-- The coordinator state threaded between chains: shared strategy array,
encountered set, hit log, and the aggregated dirty flag of `main`. -/
structure CoreState where
  strats : List (Option IStratToHrvst)
  encountered : List String
  hits : List (String × HitTypes)
  dirty : Bool
deriving DecidableEq, Repr

/-- A fresh `ChainStratManager` over the shared structures: per-pass
`dirty`, counters and worklist start at zero/empty. -/
def initSync (r : CoreState) : SyncState :=
  { strats := r.strats, encountered := r.encountered, hits := r.hits,
    dirty := false, added := 0, removed := 0, notOCH := [] }

/-- One chain's body inside `main`'s `Promise.all` (`syncStrats.ts:190-207`):
run the vault sync, then fold the pass's dirty flag and, when the off-chain
worklist is non-empty, the gas-estimation success signal into the
coordinator's dirty flag. -/
def runChain (gasOk : IChain → Bool) (vaults : List IVault) (r : CoreState)
    (c : IChain) : CoreState :=
  let st := SyncVaults c vaults (initSync r)
  { strats := st.strats, encountered := st.encountered, hits := st.hits,
    dirty := r.dirty || st.dirty || (!st.notOCH.isEmpty && gasOk c) }

/-- All chain passes, in `Object.values(chains)` order. -/
def runChains (gasOk : IChain → Bool) (vaults : List IVault)
    (chains : List IChain) (r : CoreState) : CoreState :=
  chains.foldl (runChain gasOk vaults) r

/-- The decommission sweep (`syncStrats.ts:210-216`): `forEach` skips the
holes; a surviving entry whose id was not encountered is tombstoned and
reported to the hit log.  Note the sweep does not touch the dirty flag. -/
def sweep (enc : List String) :
    List (Option IStratToHrvst) → List (String × HitTypes) →
    List (Option IStratToHrvst) × List (String × HitTypes)
  | [], h => ([], h)
  | none :: rest, h =>
      let p := sweep enc rest h
      (none :: p.1, p.2)
  | some s :: rest, h =>
      if s.id ∈ enc then
        let p := sweep enc rest h
        (some s :: p.1, p.2)
      else
        let p := sweep enc rest (hitsAdd h s.id HitType.removedDecomissioned)
        (none :: p.1, p.2)

/-- The observable outcome of one coordinator run: the post-sweep strategy
array (with holes), the shared sets, and the two conditional file writes
(`data/stratsSync.json` when the hit log is non-empty,
`data/stratsToHrvst.json` compacted when dirty). -/
structure RunResult where
  strats : List (Option IStratToHrvst)
  encountered : List String
  hits : List (String × HitTypes)
  dirty : Bool
  changeLogFile : Option (List (String × HitTypes))
  stratFile : Option (List IStratToHrvst)
deriving DecidableEq, Repr

/-- The body of `main` after a successful fetch and load
(`syncStrats.ts:185-227`). -/
def runCore (chains : List IChain) (gasOk : IChain → Bool)
    (vaults : List IVault) (strats0 : List IStratToHrvst) : RunResult :=
  let r := runChains gasOk vaults chains
    { strats := strats0.map some, encountered := [], hits := [], dirty := false }
  let sw := sweep r.encountered r.strats r.hits
  { strats := sw.1, encountered := r.encountered, hits := sw.2, dirty := r.dirty,
    changeLogFile := if sw.2.isEmpty then none else some sw.2,
    stratFile := if r.dirty then some (sw.1.filterMap id) else none }

/-- The persisted strategy list after a run: the file contents when it was
rewritten, the unchanged prior contents otherwise. -/
def persistedAfter (strats0 : List IStratToHrvst) (r : RunResult) :
    List IStratToHrvst :=
  r.stratFile.getD strats0

/-- Outcomes of `require('../data/stratsToHrvst.json')`: the file is
missing (`MODULE_NOT_FOUND`), or it fails for any other reason. -/
inductive LoadError where
  | moduleNotFound
  | other
deriving DecidableEq, Repr

/-- The fetch/load prologue of `main` (`syncStrats.ts:159-183`): a failed
catalog fetch (non-ok status, missing body, or a thrown transport error)
returns before any chain processing; a missing strategy file falls through
with the empty list; any other load failure returns.  `none` models the
aborted run, in which no file is written. -/
def mainRun (chains : List IChain) (gasOk : IChain → Bool)
    (fetched : Except Unit (List IVault))
    (loaded : Except LoadError (List IStratToHrvst)) : Option RunResult :=
  match fetched with
  | Except.error _ => none
  | Except.ok vaults =>
    match loaded with
    | Except.error LoadError.moduleNotFound => some (runCore chains gasOk vaults [])
    | Except.error LoadError.other => none
    | Except.ok strats0 => some (runCore chains gasOk vaults strats0)

/-- The configured chains of `src/data/chains.js`, in the order
`Object.values` yields them (ascending numeric key).  None of the entries
defines a `hasOnChainHarvesting` property, so the flag reads as falsy on
every configured chain, and no deny list is loaded. -/
def beefyChains : List IChain :=
  [ { id := "cronos", chainId := 25, hasOnChainHarvesting := false, denyList := [] },
    { id := "bsc", chainId := 56, hasOnChainHarvesting := false, denyList := [] },
    { id := "fuse", chainId := 122, hasOnChainHarvesting := false, denyList := [] },
    { id := "heco", chainId := 128, hasOnChainHarvesting := false, denyList := [] },
    { id := "polygon", chainId := 137, hasOnChainHarvesting := false, denyList := [] },
    { id := "fantom", chainId := 250, hasOnChainHarvesting := false, denyList := [] },
    { id := "moonriver", chainId := 1285, hasOnChainHarvesting := false, denyList := [] },
    { id := "arbitrum", chainId := 42161, hasOnChainHarvesting := false, denyList := [] },
    { id := "celo", chainId := 42220, hasOnChainHarvesting := false, denyList := [] },
    { id := "avax", chainId := 43114, hasOnChainHarvesting := false, denyList := [] },
    { id := "one", chainId := 1666600000, hasOnChainHarvesting := false, denyList := [] } ]

/-- Membership of a change kind inside a hit record's scalar-or-array
`type` field. -/
def hitTypesHas : HitTypes → HitType → Bool
  | HitTypes.one t0, t => t0 == t
  | HitTypes.many ts, t => ts.contains t

/-- Whether the hit log holds a record for `id` that includes change kind
`t`. -/
def hitsHas (h : List (String × HitTypes)) (id : String) (t : HitType) : Bool :=
  h.any (fun p => p.1 == id && hitTypesHas p.2 t)

/-- An id was observed on an active vault record whose `chain` field names
one of the configured chains. -/
def activeIdOn (chains : List IChain) (vaults : List IVault) (id : String) : Prop :=
  ∃ v, v ∈ vaults ∧ v.id = id ∧ isInactiveStatus v.status = false ∧
    ∃ c, c ∈ chains ∧ v.chain = c.id

/-- Positional refinement between two snapshots of the shared strategy
array: entries are only appended, tombstoned, or updated in place, so a
surviving slot keeps its identity fields and never loses lastHarvest
progress. -/
def slotsMono (l l2 : List (Option IStratToHrvst)) : Prop :=
  l.length ≤ l2.length ∧
  ∀ i s2, i < l.length → l2[i]? = some (some s2) →
    ∃ s, l[i]? = some (some s) ∧ s.id = s2.id ∧ s.chain = s2.chain ∧
      s.lastHarvest ≤ s2.lastHarvest

/-- At most one live slot of the shared array per `(id, strategy)` pair. -/
def optUniq (l : List (Option IStratToHrvst)) : Prop :=
  ∀ (i j : Nat) (si sj : IStratToHrvst),
    l[i]? = some (some si) → l[j]? = some (some sj) →
    si.id = sj.id → si.strategy = sj.strategy → i = j

/-- At most one entry of a compacted strategy list per `(id, strategy)`
pair. -/
def denseUniq (l : List IStratToHrvst) : Prop :=
  ∀ (i j : Nat) (a b : IStratToHrvst), l[i]? = some a → l[j]? = some b →
    a.id = b.id → a.strategy = b.strategy → i = j

/-- Concrete prior entry for the duplicate-`(chain, id)` scenario: tracked
with strategy `0xA`. -/
def eDup : IStratToHrvst :=
  { id := "v", chain := "bsc", earnContractAddress := "E",
    earnedToken := "T", strategy := "0xA", lastHarvest := 0, noOnChainHrvst := none }

/-- Concrete catalog record for the duplicate scenario: same id, strategy
migrated to `0xB`. -/
def vDup : IVault :=
  { id := "v", chain := "bsc", earnContractAddress := "E",
    earnedToken := "T", strategy := "0xB", status := "active", lastHarvest := 0 }

/-- The entry the duplicate scenario adds for `vDup`. -/
def eDupNew : IStratToHrvst :=
  { id := "v", chain := "bsc", earnContractAddress := "E",
    earnedToken := "T", strategy := "0xB", lastHarvest := 0, noOnChainHrvst := none }

/-- Concrete entry whose vault is absent from the catalog (decommission
scenario). -/
def eGone : IStratToHrvst :=
  { id := "x", chain := "bsc", earnContractAddress := "E",
    earnedToken := "T", strategy := "0xA", lastHarvest := 0, noOnChainHrvst := none }

/-- Concrete active catalog record on chain `aurora`, which `chains.js`
comments out: no reconciler processes it. -/
def vAurora : IVault :=
  { id := "v1", chain := "aurora", earnContractAddress := "E",
    earnedToken := "T", strategy := "0xB", status := "active", lastHarvest := 0 }

/-- A chain with on-chain harvesting enabled and token `T` deny-listed. -/
def gChain : IChain :=
  { id := "g", chainId := 1, hasOnChainHarvesting := true, denyList := ["T"] }

/-- Stale entry on `gChain` holding deny-listed token `T` with
`noOnChainHrvst = false`. -/
def eDenied : IStratToHrvst :=
  { id := "v", chain := "g", earnContractAddress := "E",
    earnedToken := "T", strategy := "0xA", lastHarvest := 0, noOnChainHrvst := some false }

/-- Catalog record sharing `eDenied`'s id but with a migrated strategy and
an allowed token. -/
def vMigrated : IVault :=
  { id := "v", chain := "g", earnContractAddress := "E",
    earnedToken := "U", strategy := "0xB", status := "active", lastHarvest := 0 }

/-- The entry added for `vMigrated`. -/
def eMigratedNew : IStratToHrvst :=
  { id := "v", chain := "g", earnContractAddress := "E",
    earnedToken := "U", strategy := "0xB", lastHarvest := 0, noOnChainHrvst := none }

/-- A chain without on-chain harvesting. -/
def cChain : IChain :=
  { id := "c", chainId := 9, hasOnChainHarvesting := false, denyList := [] }

/-- Tracked entry on `cChain` with the routing flag absent. -/
def eOff : IStratToHrvst :=
  { id := "w", chain := "c", earnContractAddress := "E",
    earnedToken := "T", strategy := "0xA", lastHarvest := 0, noOnChainHrvst := none }

/-- Catalog record matching `eOff` exactly. -/
def vOff : IVault :=
  { id := "w", chain := "c", earnContractAddress := "E",
    earnedToken := "T", strategy := "0xA", status := "active", lastHarvest := 0 }

/-- Sync state holding exactly `eOff`, as at the start of a pass. -/
def stOff : SyncState :=
  { strats := [some eOff], encountered := [], hits := [], dirty := false,
    added := 0, removed := 0, notOCH := [] }

/-- An entry with an empty id, as the persisted file may contain: the hit
log drops records for falsy ids. -/
def eEmptyId : IStratToHrvst :=
  { id := "", chain := "bsc", earnContractAddress := "E",
    earnedToken := "T", strategy := "0xA", lastHarvest := 0, noOnChainHrvst := none }

/-- Tracked entry used by the routing-switch witness scenario: flag set
although its chain's deny list blocks the token. -/
def eSwitch : IStratToHrvst :=
  { id := "s", chain := "g", earnContractAddress := "E",
    earnedToken := "U", strategy := "0xC", lastHarvest := 5, noOnChainHrvst := some true }

/-- Catalog record matching `eSwitch` with an allowed token. -/
def vSwitch : IVault :=
  { id := "s", chain := "g", earnContractAddress := "E",
    earnedToken := "U", strategy := "0xC", status := "active", lastHarvest := 5 }

/-- Sync state holding exactly `eSwitch`. -/
def stSwitch : SyncState :=
  { strats := [some eSwitch], encountered := [], hits := [], dirty := false,
    added := 0, removed := 0, notOCH := [] }

/-- Catalog record matching `eGone` but reporting a later harvest. -/
def vLater : IVault :=
  { id := "x", chain := "bsc", earnContractAddress := "E",
    earnedToken := "T", strategy := "0xA", status := "active", lastHarvest := 7 }

/-- Catalog record for the denied-token witness: matches nothing, token
deny-listed on `gChain`. -/
def vDenied : IVault :=
  { id := "d", chain := "g", earnContractAddress := "E",
    earnedToken := "T", strategy := "0xD", status := "active", lastHarvest := 0 }

theorem append_singleton_ne {α : Type} (l : List α) (a : α) : l ++ [a] ≠ l := by
  intro h
  have hlen := congrArg List.length h
  simp at hlen

theorem set_ne_of_getElem? {α : Type} {l : List α} {i : Nat} {a b : α}
    (h : l[i]? = some a) (hne : b ≠ a) : l.set i b ≠ l := by
  intro he
  have hlen : i < l.length := (List.getElem?_eq_some.mp h).1
  have hb : (l.set i b)[i]? = some b := List.getElem?_set_self hlen
  rw [he, h] at hb
  exact hne (Option.some.inj hb).symm

theorem getElem?_of_mem {α : Type} {l : List α} {a : α} (h : a ∈ l) :
    ∃ i : Nat, l[i]? = some a := by
  obtain ⟨i, hi, he⟩ := List.getElem_of_mem h
  exact ⟨i, by rw [List.getElem?_eq_some]; exact ⟨hi, he⟩⟩

theorem findStrat_some {v : IVault} :
    ∀ {l : List (Option IStratToHrvst)} {i : Nat} {s : IStratToHrvst},
      findStrat v l = some (i, s) →
      l[i]? = some (some s) ∧ v.strategy = s.strategy ∧ v.id = s.id := by
  intro l
  induction l with
  | nil => intro i s h; simp [findStrat] at h
  | cons os rest ih =>
    intro i s h
    match os with
    | none =>
      simp only [findStrat] at h
      obtain ⟨p, hp, hfp⟩ := Option.map_eq_some'.mp h
      obtain ⟨h1, h2⟩ := Prod.mk.injEq .. ▸ hfp
      subst h2
      obtain ⟨hg, hs, hid⟩ := ih hp
      exact ⟨by rw [← h1]; simpa using hg, hs, hid⟩
    | some s0 =>
      simp only [findStrat] at h
      split at h
      · next hcond =>
        obtain ⟨h1, h2⟩ := Prod.mk.injEq .. ▸ (Option.some.inj h)
        subst h2
        simp only [Bool.and_eq_true, beq_iff_eq] at hcond
        exact ⟨by rw [← h1]; simp, hcond.1, hcond.2⟩
      · obtain ⟨p, hp, hfp⟩ := Option.map_eq_some'.mp h
        obtain ⟨h1, h2⟩ := Prod.mk.injEq .. ▸ hfp
        subst h2
        obtain ⟨hg, hs, hid⟩ := ih hp
        exact ⟨by rw [← h1]; simpa using hg, hs, hid⟩

theorem findStrat_none {v : IVault} :
    ∀ {l : List (Option IStratToHrvst)}, findStrat v l = none →
      ∀ (i : Nat) (s : IStratToHrvst), l[i]? = some (some s) →
        ¬(v.strategy = s.strategy ∧ v.id = s.id) := by
  intro l
  induction l with
  | nil => intro _ i s hg; simp at hg
  | cons os rest ih =>
    intro h i s hg
    match os with
    | none =>
      simp only [findStrat, Option.map_eq_none'] at h
      match i with
      | 0 => simp at hg
      | Nat.succ n => exact ih h n s (by simpa using hg)
    | some s0 =>
      simp only [findStrat] at h
      split at h
      · exact absurd h (by simp)
      · next hcond =>
        match i with
        | 0 =>
          have hs : s0 = s := by simpa using hg
          subst hs
          simp only [Bool.and_eq_true, beq_iff_eq] at hcond
          intro hc
          exact hcond ⟨hc.1, hc.2⟩
        | Nat.succ n =>
          exact ih (Option.map_eq_none'.mp h) n s (by simpa using hg)

theorem hitsAdd_empty_id (h : List (String × HitTypes)) (t : HitType) :
    hitsAdd h "" t = h := by
  simp [hitsAdd]

theorem hitsAdd_keys_ne_empty {h : List (String × HitTypes)} {id : String}
    {t : HitType} (H : ∀ p ∈ h, ¬ p.1 = "") :
    ∀ p ∈ hitsAdd h id t, ¬ p.1 = "" := by
  intro p hp
  unfold hitsAdd at hp
  split at hp
  · exact H p hp
  · next hne =>
    split at hp
    · obtain ⟨q, hq, hfq⟩ := List.mem_map.mp hp
      have hkey : p.1 = q.1 := by
        rw [← hfq]; split <;> rfl
      rw [hkey]
      exact H q hq
    · rcases List.mem_append.mp hp with hl | hr
      · exact H p hl
      · have : p = (id, HitTypes.one t) := by simpa using hr
        rw [this]
        exact hne

theorem hitTypesHas_upgrade (ts : HitTypes) (t : HitType) :
    hitTypesHas (upgradeHit ts t) t = true := by
  cases ts <;> simp [upgradeHit, hitTypesHas]

theorem hitTypesHas_upgrade_mono {ts : HitTypes} {t0 : HitType} (t : HitType)
    (h : hitTypesHas ts t0 = true) : hitTypesHas (upgradeHit ts t) t0 = true := by
  cases ts with
  | one t1 =>
    simp only [hitTypesHas, beq_iff_eq] at h
    simp [upgradeHit, hitTypesHas, h]
  | many ts1 =>
    simp only [hitTypesHas] at h
    simp [upgradeHit, hitTypesHas] at h ⊢
    exact Or.inl h

theorem hitsAdd_has {h : List (String × HitTypes)} {id : String} (t : HitType)
    (hne : ¬ id = "") : hitsHas (hitsAdd h id t) id t = true := by
  unfold hitsAdd
  split
  · exact absurd (by assumption) hne
  · split
    · next hany =>
      obtain ⟨q, hq, hqk⟩ := List.any_eq_true.mp hany
      refine List.any_eq_true.mpr ⟨(q.1, upgradeHit q.2 t), List.mem_map.mpr ⟨q, hq, ?_⟩, ?_⟩
      · simp [hqk]
      · simp only [Bool.and_eq_true]
        exact ⟨hqk, hitTypesHas_upgrade q.2 t⟩
    · refine List.any_eq_true.mpr ⟨(id, HitTypes.one t), List.mem_append.mpr (Or.inr ?_), ?_⟩
      · simp
      · simp [hitTypesHas]

theorem hitsAdd_mono {h : List (String × HitTypes)} {a id : String}
    {t0 : HitType} (t : HitType) (H : hitsHas h a t0 = true) :
    hitsHas (hitsAdd h id t) a t0 = true := by
  obtain ⟨q, hq, hqp⟩ := List.any_eq_true.mp H
  simp only [Bool.and_eq_true] at hqp
  unfold hitsAdd
  split
  · exact H
  · split
    · refine List.any_eq_true.mpr
        ⟨if q.1 == id then (q.1, upgradeHit q.2 t) else q, List.mem_map.mpr ⟨q, hq, rfl⟩, ?_⟩
      split
      · simp only [Bool.and_eq_true]
        exact ⟨hqp.1, hitTypesHas_upgrade_mono t hqp.2⟩
      · simp only [Bool.and_eq_true]
        exact hqp
    · refine List.any_eq_true.mpr ⟨q, List.mem_append.mpr (Or.inl hq), ?_⟩
      simp only [Bool.and_eq_true]
      exact hqp

theorem routeFlagHit_changes {chain : IChain} {oc : Bool} {f : Option Bool}
    (h : routeFlagHit chain oc f = true) : f ≠ some (!oc) := by
  cases oc with
  | true =>
    simp only [routeFlagHit, if_true, truthy] at h
    intro he
    rw [he] at h
    simp at h
  | false =>
    simp only [routeFlagHit, if_false, Bool.and_eq_true] at h
    intro he
    rw [he] at h
    simp [truthy] at h

theorem routeFlagHit_false_chain {chain : IChain} {oc : Bool} {f : Option Bool}
    (h : chain.hasOnChainHarvesting = false) (hoc : oc = false) :
    routeFlagHit chain oc f = false := by
  subst hoc
  simp [routeFlagHit, h]

theorem foundUpdate_spec (chain : IChain) (v : IVault) (s : IStratToHrvst) :
    (foundUpdate chain v s).flagHit =
      routeFlagHit chain (onChainHarvest chain v.earnedToken) s.noOnChainHrvst ∧
    (foundUpdate chain v s).strat1 =
      (if (foundUpdate chain v s).flagHit
       then { s with noOnChainHrvst := some (!(onChainHarvest chain v.earnedToken)) }
       else s) ∧
    (foundUpdate chain v s).stratHit =
      !((foundUpdate chain v s).strat1.strategy == v.strategy) ∧
    (foundUpdate chain v s).lhHit =
      decide ((if (foundUpdate chain v s).stratHit
               then { (foundUpdate chain v s).strat1 with strategy := v.strategy }
               else (foundUpdate chain v s).strat1).lastHarvest < v.lastHarvest) ∧
    (foundUpdate chain v s).strat =
      (let s2 := if (foundUpdate chain v s).stratHit
                 then { (foundUpdate chain v s).strat1 with strategy := v.strategy }
                 else (foundUpdate chain v s).strat1
       if (foundUpdate chain v s).lhHit
       then { s2 with lastHarvest := v.lastHarvest } else s2) :=
  ⟨rfl, rfl, rfl, rfl, rfl⟩

theorem foundUpdate_strat_fields (chain : IChain) (v : IVault) (s : IStratToHrvst) :
    (foundUpdate chain v s).strat.id = s.id ∧
    (foundUpdate chain v s).strat.chain = s.chain ∧
    (foundUpdate chain v s).strat.earnedToken = s.earnedToken ∧
    (foundUpdate chain v s).strat.earnContractAddress = s.earnContractAddress ∧
    (foundUpdate chain v s).strat.lastHarvest =
      (if (foundUpdate chain v s).lhHit then v.lastHarvest else s.lastHarvest) ∧
    (foundUpdate chain v s).strat.strategy =
      (if (foundUpdate chain v s).stratHit then v.strategy else s.strategy) ∧
    (foundUpdate chain v s).strat.noOnChainHrvst =
      (if (foundUpdate chain v s).flagHit
       then some (!(onChainHarvest chain v.earnedToken))
       else s.noOnChainHrvst) := by
  obtain ⟨h1, h2, h3, h4, h5⟩ := foundUpdate_spec chain v s
  cases hf : (foundUpdate chain v s).flagHit <;>
  cases hsh : (foundUpdate chain v s).stratHit <;>
  cases hlh : (foundUpdate chain v s).lhHit <;>
  · rw [hf] at h2
    rw [hsh, hlh, h2] at h5
    simp only [if_true, if_false, Bool.false_eq_true] at h5 ⊢
    simp [h5]

theorem foundUpdate_stratHit (chain : IChain) (v : IVault) (s : IStratToHrvst) :
    (foundUpdate chain v s).stratHit = !(s.strategy == v.strategy) := by
  obtain ⟨h1, h2, h3, h4, h5⟩ := foundUpdate_spec chain v s
  rw [h3, h2]
  split <;> rfl

theorem foundUpdate_lhHit (chain : IChain) (v : IVault) (s : IStratToHrvst) :
    (foundUpdate chain v s).lhHit = decide (s.lastHarvest < v.lastHarvest) := by
  obtain ⟨h1, h2, h3, h4, h5⟩ := foundUpdate_spec chain v s
  rw [h4, h2]
  cases hf : (foundUpdate chain v s).flagHit <;>
  cases hsh : (foundUpdate chain v s).stratHit <;>
    simp only [if_true, if_false, Bool.false_eq_true]

theorem foundUpdate_ne {chain : IChain} {v : IVault} {s : IStratToHrvst}
    (h : ((foundUpdate chain v s).flagHit || (foundUpdate chain v s).stratHit ||
          (foundUpdate chain v s).lhHit) = true) :
    (foundUpdate chain v s).strat ≠ s := by
  obtain ⟨hid, hch, het, hea, hlh, hsg, hfl⟩ := foundUpdate_strat_fields chain v s
  intro he
  rw [he] at hlh hsg hfl
  simp only [Bool.or_eq_true] at h
  rcases h with (hf | hsh) | hl
  · simp only [hf, if_true] at hfl
    have h1 := (foundUpdate_spec chain v s).1
    rw [hf] at h1
    exact routeFlagHit_changes h1.symm hfl
  · simp only [hsh, if_true] at hsg
    have hst := foundUpdate_stratHit chain v s
    rw [hsh] at hst
    have : ¬ s.strategy = v.strategy := by
      intro hq
      rw [hq] at hst
      simp at hst
    exact this hsg
  · simp only [hl, if_true] at hlh
    have hlc := foundUpdate_lhHit chain v s
    rw [hl] at hlc
    have hlt : s.lastHarvest < v.lastHarvest := of_decide_eq_true hlc.symm
    omega

theorem pushedEntry_fields (chain : IChain) (v : IVault) :
    (pushedEntry chain v).id = v.id ∧
    (pushedEntry chain v).chain = v.chain ∧
    (pushedEntry chain v).earnContractAddress = v.earnContractAddress ∧
    (pushedEntry chain v).earnedToken = v.earnedToken ∧
    (pushedEntry chain v).strategy = v.strategy ∧
    (pushedEntry chain v).lastHarvest = v.lastHarvest ∧
    (pushedEntry chain v).noOnChainHrvst =
      (if onChainHarvest chain v.earnedToken then none
       else if chain.hasOnChainHarvesting then some true else none) := by
  unfold pushedEntry newEntry
  cases hoc : onChainHarvest chain v.earnedToken <;>
  cases hh : chain.hasOnChainHarvesting <;>
    simp [routeFlagHit, truthy, hoc, hh]

theorem syncVault_skip {chain : IChain} {st : SyncState} {v : IVault}
    (h : ¬ v.chain = chain.id) : syncVault chain st v = st := by
  unfold syncVault
  rw [if_pos h]

theorem syncVault_none_inactive {chain : IChain} {st : SyncState} {v : IVault}
    (h1 : v.chain = chain.id) (h2 : findStrat v st.strats = none)
    (h3 : isInactiveStatus v.status = true) : syncVault chain st v = st := by
  unfold syncVault
  rw [if_neg (by simp [h1]), h2]
  simp [h3]

theorem syncVault_push_eq {chain : IChain} {st : SyncState} {v : IVault}
    (h1 : v.chain = chain.id) (h2 : findStrat v st.strats = none)
    (h3 : isInactiveStatus v.status = false) :
    syncVault chain st v =
      { strats := st.strats ++ [some (pushedEntry chain v)],
        encountered := addId st.encountered v.id,
        hits := hitsAdd st.hits v.id HitType.added,
        dirty := true,
        added := st.added + 1,
        removed := st.removed,
        notOCH := if !(onChainHarvest chain v.earnedToken)
                  then st.notOCH ++ [pushedEntry chain v] else st.notOCH } := by
  unfold syncVault
  rw [if_neg (by simp [h1]), h2]
  simp [h3]

theorem syncVault_found_inactive {chain : IChain} {st : SyncState} {v : IVault}
    {i : Nat} {s : IStratToHrvst}
    (h1 : v.chain = chain.id) (h2 : findStrat v st.strats = some (i, s))
    (h3 : isInactiveStatus v.status = true) :
    syncVault chain st v =
      { strats := st.strats.set i none,
        encountered := st.encountered,
        hits := hitsAdd st.hits v.id HitType.removedInactive,
        dirty := true, added := st.added, removed := st.removed + 1,
        notOCH := st.notOCH } := by
  unfold syncVault
  rw [if_neg (by simp [h1]), h2]
  simp [h3]

theorem syncVault_found_active {chain : IChain} {st : SyncState} {v : IVault}
    {i : Nat} {s : IStratToHrvst}
    (h1 : v.chain = chain.id) (h2 : findStrat v st.strats = some (i, s))
    (h3 : isInactiveStatus v.status = false) :
    syncVault chain st v =
      { strats := if ((foundUpdate chain v s).flagHit || (foundUpdate chain v s).stratHit ||
                     (foundUpdate chain v s).lhHit)
                  then st.strats.set i (some (foundUpdate chain v s).strat) else st.strats,
        encountered := addId st.encountered v.id,
        hits := (if (foundUpdate chain v s).stratHit
                 then hitsAdd (if (foundUpdate chain v s).flagHit
                               then hitsAdd st.hits v.id HitType.onChainHarvestSwitch
                               else st.hits) v.id HitType.strategyUpdate
                 else (if (foundUpdate chain v s).flagHit
                       then hitsAdd st.hits v.id HitType.onChainHarvestSwitch
                       else st.hits)),
        dirty := st.dirty || ((foundUpdate chain v s).flagHit ||
                    (foundUpdate chain v s).stratHit || (foundUpdate chain v s).lhHit),
        added := st.added, removed := st.removed,
        notOCH := if !(onChainHarvest chain v.earnedToken)
                  then st.notOCH ++ [(foundUpdate chain v s).strat1] else st.notOCH } := by
  unfold syncVault
  rw [if_neg (by simp [h1]), h2]
  simp [h3]

theorem mem_addId {enc : List String} {id a : String} :
    a ∈ addId enc id ↔ a ∈ enc ∨ a = id := by
  unfold addId
  split
  · next hmem =>
    constructor
    · exact Or.inl
    · rintro (h | rfl)
      · exact h
      · exact hmem
  · simp [List.mem_append]

theorem syncVault_dirty_step (chain : IChain) (st : SyncState) (v : IVault) :
    (syncVault chain st v).dirty =
      (st.dirty || !(decide ((syncVault chain st v).strats = st.strats))) := by
  by_cases h1 : v.chain = chain.id
  · cases h2 : findStrat v st.strats with
    | none =>
      cases h3 : isInactiveStatus v.status with
      | true => rw [syncVault_none_inactive h1 h2 h3]; simp
      | false =>
        rw [syncVault_push_eq h1 h2 h3]
        simp only []
        rw [decide_eq_false (append_singleton_ne st.strats (some (pushedEntry chain v)))]
        simp
    | some p =>
      obtain ⟨i, s⟩ := p
      obtain ⟨hg, _hs, _hid⟩ := findStrat_some h2
      cases h3 : isInactiveStatus v.status with
      | true =>
        rw [syncVault_found_inactive h1 h2 h3]
        simp only []
        rw [decide_eq_false (set_ne_of_getElem? hg (by simp))]
        simp
      | false =>
        rw [syncVault_found_active h1 h2 h3]
        simp only []
        cases hhit : ((foundUpdate chain v s).flagHit || (foundUpdate chain v s).stratHit ||
            (foundUpdate chain v s).lhHit) with
        | false => simp
        | true =>
          have hne : some (foundUpdate chain v s).strat ≠ some s := by
            simpa using foundUpdate_ne hhit
          rw [if_pos rfl]
          rw [decide_eq_false (set_ne_of_getElem? hg hne)]
          simp
  · rw [syncVault_skip h1]
    simp

theorem slotsMono_refl (l : List (Option IStratToHrvst)) : slotsMono l l := by
  refine ⟨le_refl _, fun i s2 hi hg => ⟨s2, hg, rfl, rfl, le_refl _⟩⟩

theorem slotsMono_trans {a b c : List (Option IStratToHrvst)}
    (h1 : slotsMono a b) (h2 : slotsMono b c) : slotsMono a c := by
  refine ⟨le_trans h1.1 h2.1, fun i s2 hi hg => ?_⟩
  obtain ⟨s1, hb, hid1, hch1, hle1⟩ := h2.2 i s2 (lt_of_lt_of_le hi h1.1) hg
  obtain ⟨s0, ha, hid0, hch0, hle0⟩ := h1.2 i s1 hi hb
  exact ⟨s0, ha, hid0.trans hid1, hch0.trans hch1, le_trans hle0 hle1⟩

theorem syncVault_slotsMono (chain : IChain) (st : SyncState) (v : IVault) :
    slotsMono st.strats (syncVault chain st v).strats := by
  by_cases h1 : v.chain = chain.id
  · cases h2 : findStrat v st.strats with
    | none =>
      cases h3 : isInactiveStatus v.status with
      | true => rw [syncVault_none_inactive h1 h2 h3]; exact slotsMono_refl _
      | false =>
        rw [syncVault_push_eq h1 h2 h3]
        refine ⟨by simp, fun i s2 hi hg => ?_⟩
        rw [List.getElem?_append_left hi] at hg
        exact ⟨s2, hg, rfl, rfl, le_refl _⟩
    | some p =>
      obtain ⟨i0, s⟩ := p
      obtain ⟨hg0, hsg0, hid0⟩ := findStrat_some h2
      cases h3 : isInactiveStatus v.status with
      | true =>
        rw [syncVault_found_inactive h1 h2 h3]
        refine ⟨by simp, fun i s2 hi hg => ?_⟩
        by_cases hii : i = i0
        · subst hii
          rw [List.getElem?_set_self (lt_of_lt_of_le (by exact hi) (le_refl _))] at hg
          · simp at hg
        · rw [List.getElem?_set_ne (fun he => hii he.symm)] at hg
          exact ⟨s2, hg, rfl, rfl, le_refl _⟩
      | false =>
        rw [syncVault_found_active h1 h2 h3]
        cases hhit : ((foundUpdate chain v s).flagHit || (foundUpdate chain v s).stratHit ||
            (foundUpdate chain v s).lhHit) with
        | false => simp only [if_false, Bool.false_eq_true]; exact slotsMono_refl _
        | true =>
          simp only [if_true]
          refine ⟨by simp, fun i s2 hi hg => ?_⟩
          by_cases hii : i = i0
          · subst hii
            have hlen : i < st.strats.length := (List.getElem?_eq_some.mp hg0).1
            rw [List.getElem?_set_self hlen] at hg
            have hs2 : s2 = (foundUpdate chain v s).strat := by
              have := Option.some.inj hg
              exact (Option.some.inj this).symm
            subst hs2
            obtain ⟨hid, hch, _het, _hea, hlh, _hsg, _hfl⟩ := foundUpdate_strat_fields chain v s
            refine ⟨s, hg0, hid.symm, hch.symm, ?_⟩
            rw [hlh]
            cases hl : (foundUpdate chain v s).lhHit with
            | false => simp
            | true =>
              have hd := foundUpdate_lhHit chain v s
              rw [hl] at hd
              have := of_decide_eq_true hd.symm
              simp only [if_true]
              omega
          · rw [List.getElem?_set_ne (fun he => hii he.symm)] at hg
            exact ⟨s2, hg, rfl, rfl, le_refl _⟩
  · rw [syncVault_skip h1]; exact slotsMono_refl _

theorem SyncVaults_slotsMono (chain : IChain) :
    ∀ (vaults : List IVault) (st : SyncState),
      slotsMono st.strats (SyncVaults chain vaults st).strats := by
  intro vaults
  induction vaults with
  | nil => intro st; exact slotsMono_refl _
  | cons v vs ih =>
    intro st
    exact slotsMono_trans (syncVault_slotsMono chain st v) (ih (syncVault chain st v))

theorem runChains_slotsMono (gasOk : IChain → Bool) (vaults : List IVault) :
    ∀ (chains : List IChain) (r : CoreState),
      slotsMono r.strats (runChains gasOk vaults chains r).strats := by
  intro chains
  induction chains with
  | nil => intro r; exact slotsMono_refl _
  | cons c cs ih =>
    intro r
    have h1 : slotsMono r.strats (runChain gasOk vaults r c).strats :=
      SyncVaults_slotsMono c vaults (initSync r)
    exact slotsMono_trans h1 (ih (runChain gasOk vaults r c))

theorem sweep_length (enc : List String) :
    ∀ (l : List (Option IStratToHrvst)) (h : List (String × HitTypes)),
      (sweep enc l h).1.length = l.length := by
  intro l
  induction l with
  | nil => intro h; rfl
  | cons os rest ih =>
    intro h
    match os with
    | none => simpa [sweep] using ih h
    | some s =>
      by_cases hm : s.id ∈ enc
      · simp only [sweep, if_pos hm]
        simpa using ih h
      · simp only [sweep, if_neg hm]
        simpa using ih _

theorem sweep_slots {enc : List String} :
    ∀ {l : List (Option IStratToHrvst)} {h : List (String × HitTypes)}
      {i : Nat} {s : IStratToHrvst},
      (sweep enc l h).1[i]? = some (some s) → l[i]? = some (some s) := by
  intro l
  induction l with
  | nil => intro h i s hg; simp [sweep] at hg
  | cons os rest ih =>
    intro h i s hg
    match os with
    | none =>
      simp only [sweep] at hg
      match i with
      | 0 => simp at hg
      | Nat.succ n => simpa using ih (by simpa using hg)
    | some s0 =>
      by_cases hm : s0.id ∈ enc
      · simp only [sweep, if_pos hm] at hg
        match i with
        | 0 => simpa using hg
        | Nat.succ n => simpa using ih (by simpa using hg)
      · simp only [sweep, if_neg hm] at hg
        match i with
        | 0 => simp at hg
        | Nat.succ n => simpa using ih (by simpa using hg)

theorem syncVault_lh_overwrite {chain : IChain} {st : SyncState} {v : IVault}
    {i : Nat} {s s2 : IStratToHrvst}
    (hin : st.strats[i]? = some (some s))
    (hout : (syncVault chain st v).strats[i]? = some (some s2))
    (hne : ¬ s2.lastHarvest = s.lastHarvest) :
    s.lastHarvest < v.lastHarvest ∧ s2.lastHarvest = v.lastHarvest := by
  by_cases h1 : v.chain = chain.id
  · cases h2 : findStrat v st.strats with
    | none =>
      cases h3 : isInactiveStatus v.status with
      | true =>
        rw [syncVault_none_inactive h1 h2 h3] at hout
        rw [hin] at hout
        exact absurd (congrArg IStratToHrvst.lastHarvest
          (Option.some.inj (Option.some.inj hout))).symm hne
      | false =>
        rw [syncVault_push_eq h1 h2 h3] at hout
        have hlen : i < st.strats.length := (List.getElem?_eq_some.mp hin).1
        rw [List.getElem?_append_left hlen] at hout
        rw [hin] at hout
        exact absurd (congrArg IStratToHrvst.lastHarvest
          (Option.some.inj (Option.some.inj hout))).symm hne
    | some p =>
      obtain ⟨i0, s0⟩ := p
      obtain ⟨hg0, hsg0, hid0⟩ := findStrat_some h2
      cases h3 : isInactiveStatus v.status with
      | true =>
        rw [syncVault_found_inactive h1 h2 h3] at hout
        by_cases hii : i = i0
        · subst hii
          rw [List.getElem?_set_self (List.getElem?_eq_some.mp hin).1] at hout
          simp at hout
        · rw [List.getElem?_set_ne (fun he => hii he.symm)] at hout
          rw [hin] at hout
          exact absurd (congrArg IStratToHrvst.lastHarvest
            (Option.some.inj (Option.some.inj hout))).symm hne
      | false =>
        rw [syncVault_found_active h1 h2 h3] at hout
        cases hhit : ((foundUpdate chain v s0).flagHit || (foundUpdate chain v s0).stratHit ||
            (foundUpdate chain v s0).lhHit) with
        | false =>
          rw [hhit] at hout
          simp only [Bool.false_eq_true, if_false] at hout
          rw [hin] at hout
          exact absurd (congrArg IStratToHrvst.lastHarvest
            (Option.some.inj (Option.some.inj hout))).symm hne
        | true =>
          rw [hhit] at hout
          simp only [if_true] at hout
          by_cases hii : i = i0
          · subst hii
            rw [List.getElem?_set_self (List.getElem?_eq_some.mp hin).1] at hout
            have hs2 : s2 = (foundUpdate chain v s0).strat :=
              (Option.some.inj (Option.some.inj hout)).symm
            have hs : s0 = s := Option.some.inj (Option.some.inj (hg0.symm.trans hin))
            subst hs2
            rw [← hs] at hne ⊢
            obtain ⟨_hid, _hch, _het, _hea, hlh, _hsg, _hfl⟩ :=
              foundUpdate_strat_fields chain v s0
            cases hl : (foundUpdate chain v s0).lhHit with
            | false =>
              rw [hl] at hlh
              simp only [Bool.false_eq_true, if_false] at hlh
              exact absurd hlh hne
            | true =>
              have hd := foundUpdate_lhHit chain v s0
              rw [hl] at hd
              have hlt := of_decide_eq_true hd.symm
              rw [hl] at hlh
              simp only [if_true] at hlh
              exact ⟨hlt, hlh⟩
          · rw [List.getElem?_set_ne (fun he => hii he.symm)] at hout
            rw [hin] at hout
            exact absurd (congrArg IStratToHrvst.lastHarvest
              (Option.some.inj (Option.some.inj hout))).symm hne
  · rw [syncVault_skip h1] at hout
    rw [hin] at hout
    exact absurd (congrArg IStratToHrvst.lastHarvest
      (Option.some.inj (Option.some.inj hout))).symm hne

theorem SyncVaults_dirty (chain : IChain) :
    ∀ (vaults : List IVault) (st : SyncState),
      (SyncVaults chain vaults st).dirty = (st.dirty || syncMutates chain st vaults) := by
  intro vaults
  induction vaults with
  | nil => intro st; simp [SyncVaults, syncMutates]
  | cons v vs ih =>
    intro st
    have hc : SyncVaults chain (v :: vs) st = SyncVaults chain vs (syncVault chain st v) := rfl
    rw [hc, ih, syncVault_dirty_step]
    simp only [syncMutates]
    rw [Bool.or_assoc]

theorem SyncVaults_strats_frame (chain : IChain) :
    ∀ (vaults : List IVault) (st : SyncState),
      syncMutates chain st vaults = false →
      (SyncVaults chain vaults st).strats = st.strats := by
  intro vaults
  induction vaults with
  | nil => intro st _; rfl
  | cons v vs ih =>
    intro st hm
    simp only [syncMutates, Bool.or_eq_false_iff] at hm
    have h1 : (syncVault chain st v).strats = st.strats := by
      have := hm.1
      simpa using of_decide_eq_true (by simpa using this)
    have hc : SyncVaults chain (v :: vs) st = SyncVaults chain vs (syncVault chain st v) := rfl
    rw [hc, ih _ hm.2, h1]

theorem syncVault_encountered (chain : IChain) (st : SyncState) (v : IVault)
    (a : String) :
    a ∈ (syncVault chain st v).encountered ↔
      a ∈ st.encountered ∨
        (a = v.id ∧ v.chain = chain.id ∧ isInactiveStatus v.status = false) := by
  by_cases h1 : v.chain = chain.id
  · cases h2 : findStrat v st.strats with
    | none =>
      cases h3 : isInactiveStatus v.status with
      | true =>
        rw [syncVault_none_inactive h1 h2 h3]
        simp [h3]
      | false =>
        rw [syncVault_push_eq h1 h2 h3]
        simp only []
        rw [mem_addId]
        simp [h1, h3]
    | some p =>
      obtain ⟨i0, s0⟩ := p
      cases h3 : isInactiveStatus v.status with
      | true =>
        rw [syncVault_found_inactive h1 h2 h3]
        simp [h3]
      | false =>
        rw [syncVault_found_active h1 h2 h3]
        simp only []
        rw [mem_addId]
        simp [h1, h3]
  · rw [syncVault_skip h1]
    simp [h1]

theorem SyncVaults_encountered (chain : IChain) :
    ∀ (vaults : List IVault) (st : SyncState) (a : String),
      a ∈ (SyncVaults chain vaults st).encountered ↔
        a ∈ st.encountered ∨
          ∃ v, v ∈ vaults ∧ a = v.id ∧ v.chain = chain.id ∧
            isInactiveStatus v.status = false := by
  intro vaults
  induction vaults with
  | nil => intro st a; simp [SyncVaults]
  | cons v vs ih =>
    intro st a
    have hc : SyncVaults chain (v :: vs) st = SyncVaults chain vs (syncVault chain st v) := rfl
    rw [hc, ih, syncVault_encountered]
    constructor
    · rintro ((h | h) | ⟨w, hw, hrest⟩)
      · exact Or.inl h
      · exact Or.inr ⟨v, List.mem_cons_self v vs, h⟩
      · exact Or.inr ⟨w, List.mem_cons_of_mem v hw, hrest⟩
    · rintro (h | ⟨w, hw, hrest⟩)
      · exact Or.inl (Or.inl h)
      · rcases List.mem_cons.mp hw with rfl | hw2
        · exact Or.inl (Or.inr hrest)
        · exact Or.inr ⟨w, hw2, hrest⟩

theorem runChains_encountered (gasOk : IChain → Bool) (vaults : List IVault) :
    ∀ (chains : List IChain) (r : CoreState) (a : String),
      a ∈ (runChains gasOk vaults chains r).encountered ↔
        a ∈ r.encountered ∨
          ∃ v, v ∈ vaults ∧ a = v.id ∧ isInactiveStatus v.status = false ∧
            ∃ c, c ∈ chains ∧ v.chain = c.id := by
  intro chains
  induction chains with
  | nil => intro r a; simp [runChains]
  | cons c cs ih =>
    intro r a
    have hc : runChains gasOk vaults (c :: cs) r =
        runChains gasOk vaults cs (runChain gasOk vaults r c) := rfl
    rw [hc, ih]
    have he : (runChain gasOk vaults r c).encountered =
        (SyncVaults c vaults (initSync r)).encountered := rfl
    rw [he, SyncVaults_encountered]
    have hie : (initSync r).encountered = r.encountered := rfl
    rw [hie]
    constructor
    · rintro ((h | ⟨w, hw, hid, hch, hact⟩) | ⟨w, hw, hid, hact, d, hd, hch⟩)
      · exact Or.inl h
      · exact Or.inr ⟨w, hw, hid, hact, c, List.mem_cons_self c cs, hch⟩
      · exact Or.inr ⟨w, hw, hid, hact, d, List.mem_cons_of_mem c hd, hch⟩
    · rintro (h | ⟨w, hw, hid, hact, d, hd, hch⟩)
      · exact Or.inl (Or.inl h)
      · rcases List.mem_cons.mp hd with rfl | hd2
        · exact Or.inl (Or.inr ⟨w, hw, hid, hch, hact⟩)
        · exact Or.inr ⟨w, hw, hid, hact, d, hd2, hch⟩

theorem syncVault_hits_clean {chain : IChain} {st : SyncState} {v : IVault}
    (H : ∀ p ∈ st.hits, ¬ p.1 = "") :
    ∀ p ∈ (syncVault chain st v).hits, ¬ p.1 = "" := by
  by_cases h1 : v.chain = chain.id
  · cases h2 : findStrat v st.strats with
    | none =>
      cases h3 : isInactiveStatus v.status with
      | true => rw [syncVault_none_inactive h1 h2 h3]; exact H
      | false =>
        rw [syncVault_push_eq h1 h2 h3]
        exact hitsAdd_keys_ne_empty H
    | some p =>
      obtain ⟨i0, s0⟩ := p
      cases h3 : isInactiveStatus v.status with
      | true =>
        rw [syncVault_found_inactive h1 h2 h3]
        exact hitsAdd_keys_ne_empty H
      | false =>
        rw [syncVault_found_active h1 h2 h3]
        simp only []
        split
        · split
          · exact hitsAdd_keys_ne_empty (hitsAdd_keys_ne_empty H)
          · exact hitsAdd_keys_ne_empty H
        · split
          · exact hitsAdd_keys_ne_empty H
          · exact H
  · rw [syncVault_skip h1]; exact H

theorem SyncVaults_hits_clean (chain : IChain) :
    ∀ (vaults : List IVault) (st : SyncState),
      (∀ p ∈ st.hits, ¬ p.1 = "") →
      ∀ p ∈ (SyncVaults chain vaults st).hits, ¬ p.1 = "" := by
  intro vaults
  induction vaults with
  | nil => intro st H; exact H
  | cons v vs ih =>
    intro st H
    exact ih (syncVault chain st v) (syncVault_hits_clean H)

theorem runChains_hits_clean (gasOk : IChain → Bool) (vaults : List IVault) :
    ∀ (chains : List IChain) (r : CoreState),
      (∀ p ∈ r.hits, ¬ p.1 = "") →
      ∀ p ∈ (runChains gasOk vaults chains r).hits, ¬ p.1 = "" := by
  intro chains
  induction chains with
  | nil => intro r H; exact H
  | cons c cs ih =>
    intro r H
    exact ih (runChain gasOk vaults r c) (SyncVaults_hits_clean c vaults (initSync r) H)

theorem sweep_hits_clean (enc : List String) :
    ∀ (l : List (Option IStratToHrvst)) (h : List (String × HitTypes)),
      (∀ p ∈ h, ¬ p.1 = "") →
      ∀ p ∈ (sweep enc l h).2, ¬ p.1 = "" := by
  intro l
  induction l with
  | nil => intro h H; exact H
  | cons os rest ih =>
    intro h H
    match os with
    | none => exact ih h H
    | some s =>
      by_cases hm : s.id ∈ enc
      · simp only [sweep, if_pos hm]
        exact ih h H
      · simp only [sweep, if_neg hm]
        exact ih _ (hitsAdd_keys_ne_empty H)

end Cowllector

namespace Cowllector

theorem getElem?_set_cases {α : Type} {l : List α} {i0 i : Nat} {a b : α}
    (h : (l.set i0 b)[i]? = some a) :
    (i = i0 ∧ i < l.length ∧ a = b) ∨ (¬ i = i0 ∧ l[i]? = some a) := by
  by_cases hii : i = i0
  · subst hii
    by_cases hlen : i < l.length
    · rw [List.getElem?_set_self hlen] at h
      exact Or.inl ⟨rfl, hlen, (Option.some.inj h).symm⟩
    · rw [List.getElem?_eq_none (by simpa using Nat.le_of_not_lt hlen)] at h
      exact absurd h (by simp)
  · rw [List.getElem?_set_ne (fun he => hii he.symm)] at h
    exact Or.inr ⟨hii, h⟩

theorem getElem?_append_singleton_cases {α : Type} {l : List α} {a b : α} {i : Nat}
    (h : (l ++ [a])[i]? = some b) :
    (i < l.length ∧ l[i]? = some b) ∨ (i = l.length ∧ b = a) := by
  by_cases hlen : i < l.length
  · rw [List.getElem?_append_left hlen] at h
    exact Or.inl ⟨hlen, h⟩
  · have hge : l.length ≤ i := Nat.le_of_not_lt hlen
    rw [List.getElem?_append_right hge] at h
    by_cases hi0 : i - l.length = 0
    · rw [hi0] at h
      simp at h
      exact Or.inr ⟨by omega, h.symm⟩
    · rw [List.getElem?_eq_none (by simp; omega)] at h
      exact absurd h (by simp)

theorem optUniq_set_none {l : List (Option IStratToHrvst)} {i0 : Nat}
    (H : optUniq l) : optUniq (l.set i0 none) := by
  intro i j si sj hi hj hid hsg
  rcases getElem?_set_cases hi with ⟨_, _, habs⟩ | ⟨_, hi2⟩
  · exact absurd habs (by simp)
  · rcases getElem?_set_cases hj with ⟨_, _, habs⟩ | ⟨_, hj2⟩
    · exact absurd habs (by simp)
    · exact H i j si sj hi2 hj2 hid hsg

theorem optUniq_set_samekey {l : List (Option IStratToHrvst)} {i0 : Nat}
    {s0 snew : IStratToHrvst} (H : optUniq l)
    (hg : l[i0]? = some (some s0)) (hid : snew.id = s0.id)
    (hsg : snew.strategy = s0.strategy) : optUniq (l.set i0 (some snew)) := by
  intro i j si sj hi hj hidij hsgij
  rcases getElem?_set_cases hi with ⟨hii, _, hsi⟩ | ⟨hii, hi2⟩ <;>
  rcases getElem?_set_cases hj with ⟨hjj, _, hsj⟩ | ⟨hjj, hj2⟩
  · rw [hii, hjj]
  · have hsi2 : si = snew := Option.some.inj hsi
    have hkeyid : sj.id = s0.id := by rw [← hidij, hsi2]; exact hid
    have hkeysg : sj.strategy = s0.strategy := by rw [← hsgij, hsi2]; exact hsg
    exact absurd (H j i0 sj s0 hj2 hg hkeyid hkeysg) hjj
  · have hsj2 : sj = snew := Option.some.inj hsj
    have hkeyid : si.id = s0.id := by rw [hidij, hsj2]; exact hid
    have hkeysg : si.strategy = s0.strategy := by rw [hsgij, hsj2]; exact hsg
    exact absurd (H i i0 si s0 hi2 hg hkeyid hkeysg) hii
  · exact H i j si sj hi2 hj2 hidij hsgij

theorem optUniq_push {l : List (Option IStratToHrvst)} {p : IStratToHrvst}
    (H : optUniq l)
    (hfresh : ∀ (k : Nat) (s : IStratToHrvst), l[k]? = some (some s) →
      ¬(s.id = p.id ∧ s.strategy = p.strategy)) :
    optUniq (l ++ [some p]) := by
  intro i j si sj hi hj hid hsg
  rcases getElem?_append_singleton_cases hi with ⟨hli, hi2⟩ | ⟨hii, hsi⟩ <;>
  rcases getElem?_append_singleton_cases hj with ⟨hlj, hj2⟩ | ⟨hjj, hsj⟩
  · exact H i j si sj hi2 hj2 hid hsg
  · have hsj2 : sj = p := Option.some.inj hsj.symm.symm
    subst hsj2
    exact absurd ⟨hid, hsg⟩ (hfresh i si hi2)
  · have hsi2 : si = p := Option.some.inj hsi.symm.symm
    subst hsi2
    exact absurd ⟨hid.symm, hsg.symm⟩ (hfresh j sj hj2)
  · rw [hii, hjj]

end Cowllector

namespace Cowllector

theorem syncVault_optUniq (chain : IChain) (st : SyncState) (v : IVault)
    (H : optUniq st.strats) : optUniq (syncVault chain st v).strats := by
  by_cases h1 : v.chain = chain.id
  · cases h2 : findStrat v st.strats with
    | none =>
      cases h3 : isInactiveStatus v.status with
      | true => rw [syncVault_none_inactive h1 h2 h3]; exact H
      | false =>
        rw [syncVault_push_eq h1 h2 h3]
        refine optUniq_push H (fun k s hk hkey => ?_)
        obtain ⟨hpid, _, _, _, hpsg, _, _⟩ := pushedEntry_fields chain v
        exact findStrat_none h2 k s hk
          ⟨by rw [← hpsg, ← hkey.2], by rw [← hpid, ← hkey.1]⟩
    | some p =>
      obtain ⟨i0, s0⟩ := p
      obtain ⟨hg0, hsg0, hid0⟩ := findStrat_some h2
      cases h3 : isInactiveStatus v.status with
      | true =>
        rw [syncVault_found_inactive h1 h2 h3]
        exact optUniq_set_none H
      | false =>
        rw [syncVault_found_active h1 h2 h3]
        simp only []
        split
        · refine optUniq_set_samekey H hg0 ?_ ?_
          · exact (foundUpdate_strat_fields chain v s0).1
          · obtain ⟨_, _, _, _, _, hsg, _⟩ := foundUpdate_strat_fields chain v s0
            rw [hsg, foundUpdate_stratHit]
            rw [← hsg0]
            simp
        · exact H
  · rw [syncVault_skip h1]; exact H

theorem SyncVaults_optUniq (chain : IChain) :
    ∀ (vaults : List IVault) (st : SyncState),
      optUniq st.strats → optUniq (SyncVaults chain vaults st).strats := by
  intro vaults
  induction vaults with
  | nil => intro st H; exact H
  | cons v vs ih =>
    intro st H
    exact ih (syncVault chain st v) (syncVault_optUniq chain st v H)

theorem runChains_optUniq (gasOk : IChain → Bool) (vaults : List IVault) :
    ∀ (chains : List IChain) (r : CoreState),
      optUniq r.strats → optUniq (runChains gasOk vaults chains r).strats := by
  intro chains
  induction chains with
  | nil => intro r H; exact H
  | cons c cs ih =>
    intro r H
    exact ih (runChain gasOk vaults r c) (SyncVaults_optUniq c vaults (initSync r) H)

theorem sweep_optUniq {enc : List String} {l : List (Option IStratToHrvst)}
    {h : List (String × HitTypes)} (H : optUniq l) : optUniq (sweep enc l h).1 := by
  intro i j si sj hi hj hid hsg
  exact H i j si sj (sweep_slots hi) (sweep_slots hj) hid hsg

theorem optUniq_tail {os : Option IStratToHrvst} {rest : List (Option IStratToHrvst)}
    (H : optUniq (os :: rest)) : optUniq rest := by
  intro i j si sj hi hj hid hsg
  have := H (i + 1) (j + 1) si sj (by simpa using hi) (by simpa using hj) hid hsg
  omega

theorem denseUniq_filterMap :
    ∀ {l : List (Option IStratToHrvst)}, optUniq l → denseUniq (l.filterMap id) := by
  intro l
  induction l with
  | nil => intro _ i j a b hi _ _ _; simp at hi
  | cons os rest ih =>
    intro H
    match os with
    | none =>
      have hfm : (none :: rest).filterMap id = rest.filterMap id := by
        simp [List.filterMap_cons]
      rw [hfm]
      exact ih (optUniq_tail H)
    | some s =>
      have hfm : (some s :: rest).filterMap id = s :: rest.filterMap id := by
        simp [List.filterMap_cons]
      rw [hfm]
      intro i j a b hi hj hid hsg
      match i, j with
      | 0, 0 => rfl
      | 0, Nat.succ m =>
        have ha : a = s := by simpa using hi.symm
        have hb : b ∈ rest.filterMap id := List.getElem?_mem (by simpa using hj)
        obtain ⟨ob, hob, hobe⟩ := List.mem_filterMap.mp hb
        obtain ⟨k, hk⟩ := getElem?_of_mem hob
        have hbk : rest[k]? = some (some b) := by
          rw [hk]
          exact congrArg some hobe
        have := H 0 (k + 1) s b (by simp) (by simpa using hbk)
          (by rw [← ha, hid]) (by rw [← ha, hsg])
        omega
      | Nat.succ n, 0 =>
        have hb : b = s := by simpa using hj.symm
        have ha : a ∈ rest.filterMap id := List.getElem?_mem (by simpa using hi)
        obtain ⟨oa, hoa, hoae⟩ := List.mem_filterMap.mp ha
        obtain ⟨k, hk⟩ := getElem?_of_mem hoa
        have hak : rest[k]? = some (some a) := by
          rw [hk]
          exact congrArg some hoae
        have := H (k + 1) 0 a s (by simpa using hak) (by simp)
          (by rw [← hb, ← hid]) (by rw [← hb, ← hsg])
        omega
      | Nat.succ n, Nat.succ m =>
        have := ih (optUniq_tail H) n m a b (by simpa using hi) (by simpa using hj) hid hsg
        omega

theorem optUniq_map_some {l : List IStratToHrvst} (H : denseUniq l) :
    optUniq (l.map some) := by
  intro i j si sj hi hj hid hsg
  rw [List.getElem?_map] at hi hj
  obtain ⟨a, ha, hae⟩ := Option.map_eq_some'.mp hi
  obtain ⟨b, hb, hbe⟩ := Option.map_eq_some'.mp hj
  have ha2 : a = si := Option.some.inj hae
  have hb2 : b = sj := Option.some.inj hbe
  subst ha2; subst hb2
  exact H i j _ _ ha hb hid hsg

end Cowllector

namespace Cowllector

theorem sweep_hits_mono (enc : List String) :
    ∀ (l : List (Option IStratToHrvst)) (h : List (String × HitTypes))
      (a : String) (t : HitType),
      hitsHas h a t = true → hitsHas (sweep enc l h).2 a t = true := by
  intro l
  induction l with
  | nil => intro h a t H; exact H
  | cons os rest ih =>
    intro h a t H
    match os with
    | none => exact ih h a t H
    | some s =>
      by_cases hm : s.id ∈ enc
      · simp only [sweep, if_pos hm]
        exact ih h a t H
      · simp only [sweep, if_neg hm]
        exact ih _ a t (hitsAdd_mono _ H)

theorem sweep_removes {enc : List String} :
    ∀ {l : List (Option IStratToHrvst)} {h : List (String × HitTypes)}
      {i : Nat} {s : IStratToHrvst}, l[i]? = some (some s) →
      (s.id ∈ enc → (sweep enc l h).1[i]? = some (some s)) ∧
      (s.id ∉ enc → (sweep enc l h).1[i]? = some none ∧
        (¬ s.id = "" → hitsHas (sweep enc l h).2 s.id HitType.removedDecomissioned = true)) := by
  intro l
  induction l with
  | nil => intro h i s hg; simp at hg
  | cons os rest ih =>
    intro h i s hg
    match os, i with
    | none, 0 => simp at hg
    | none, Nat.succ n =>
      have hg2 : rest[n]? = some (some s) := by simpa using hg
      refine ⟨fun hm => ?_, fun hm => ⟨?_, fun hne => ?_⟩⟩
      · simpa [sweep] using (ih hg2).1 hm
      · simpa [sweep] using ((ih hg2).2 hm).1
      · simpa [sweep] using ((ih hg2).2 hm).2 hne
    | some s0, 0 =>
      have hs : s0 = s := by simpa using hg
      subst hs
      by_cases hm0 : s0.id ∈ enc
      · refine ⟨fun _ => ?_, fun hm => absurd hm0 hm⟩
        simp [sweep, if_pos hm0]
      · refine ⟨fun hm => absurd hm hm0, fun _ => ⟨?_, fun hne => ?_⟩⟩
        · simp [sweep, if_neg hm0]
        · simp only [sweep, if_neg hm0]
          exact sweep_hits_mono enc rest _ s0.id HitType.removedDecomissioned
            (hitsAdd_has HitType.removedDecomissioned hne)
    | some s0, Nat.succ n =>
      have hg2 : rest[n]? = some (some s) := by simpa using hg
      by_cases hm0 : s0.id ∈ enc
      · refine ⟨fun hm => ?_, fun hm => ⟨?_, fun hne => ?_⟩⟩
        · simpa [sweep, if_pos hm0] using (ih hg2).1 hm
        · simpa [sweep, if_pos hm0] using ((ih hg2).2 hm).1
        · simpa [sweep, if_pos hm0] using ((ih hg2).2 hm).2 hne
      · refine ⟨fun hm => ?_, fun hm => ⟨?_, fun hne => ?_⟩⟩
        · simpa [sweep, if_neg hm0] using (ih hg2).1 hm
        · simpa [sweep, if_neg hm0] using ((ih hg2).2 hm).1
        · simpa [sweep, if_neg hm0] using ((ih hg2).2 hm).2 hne

end Cowllector

namespace Cowllector

theorem routeFlagHit_iff {chain : IChain} {oc : Bool} {f : Option Bool}
    (hOCH : chain.hasOnChainHarvesting = true) :
    routeFlagHit chain oc f = true ↔ oc = truthy f := by
  cases oc <;> cases hf : truthy f <;> simp [routeFlagHit, hOCH, hf]

theorem onChainHarvest_false {chain : IChain} {tok : String}
    (hOCH : chain.hasOnChainHarvesting = false) :
    onChainHarvest chain tok = false := by
  simp [onChainHarvest, hOCH]

theorem syncVault_route_found (chain : IChain) (st : SyncState) (v : IVault)
    (hch : v.chain = chain.id) (hact : isInactiveStatus v.status = false)
    (i : Nat) (s : IStratToHrvst) (hf : findStrat v st.strats = some (i, s)) :
    (chain.hasOnChainHarvesting = true →
      (onChainHarvest chain v.earnedToken = truthy s.noOnChainHrvst →
        ∃ s2, (syncVault chain st v).strats[i]? = some (some s2) ∧
          s2.id = s.id ∧ s2.strategy = s.strategy ∧
          s2.noOnChainHrvst = some (!(onChainHarvest chain v.earnedToken)) ∧
          (syncVault chain st v).dirty = true ∧
          (syncVault chain st v).hits =
            hitsAdd st.hits v.id HitType.onChainHarvestSwitch) ∧
      (¬ onChainHarvest chain v.earnedToken = truthy s.noOnChainHrvst →
        ∃ s2, (syncVault chain st v).strats[i]? = some (some s2) ∧
          s2.id = s.id ∧ s2.strategy = s.strategy ∧
          s2.noOnChainHrvst = s.noOnChainHrvst ∧
          (syncVault chain st v).hits = st.hits)) ∧
    (chain.hasOnChainHarvesting = false →
      ∃ s2, (syncVault chain st v).strats[i]? = some (some s2) ∧
        s2.id = s.id ∧ s2.strategy = s.strategy ∧
        s2.noOnChainHrvst = s.noOnChainHrvst ∧
        (syncVault chain st v).hits = st.hits) := by
  obtain ⟨hg0, hsg0, hid0⟩ := findStrat_some hf
  have hlen : i < st.strats.length := (List.getElem?_eq_some.mp hg0).1
  have hstratHit : (foundUpdate chain v s).stratHit = false := by
    rw [foundUpdate_stratHit, ← hsg0]
    simp
  obtain ⟨huid, huch, huet, huea, hulh, husg, hufl⟩ := foundUpdate_strat_fields chain v s
  have husg2 : (foundUpdate chain v s).strat.strategy = s.strategy := by
    rw [husg, hstratHit]
    simp
  have hflagHit := (foundUpdate_spec chain v s).1
  rw [syncVault_found_active hch hf hact]
  simp only [hstratHit, Bool.false_eq_true, if_false, Bool.or_false]
  constructor
  · intro hOCH
    constructor
    · intro hEq
      have hfh : (foundUpdate chain v s).flagHit = true := by
        rw [hflagHit]
        exact (routeFlagHit_iff hOCH).mpr hEq
      simp only [hfh, Bool.true_or, if_true, Bool.or_true]
      refine ⟨(foundUpdate chain v s).strat, List.getElem?_set_self hlen, huid, husg2, ?_,
        by trivial, by trivial⟩
      rw [hufl, hfh]
      simp
    · intro hNe
      have hfh : (foundUpdate chain v s).flagHit = false := by
        rw [hflagHit]
        by_cases hq : routeFlagHit chain (onChainHarvest chain v.earnedToken)
            s.noOnChainHrvst = true
        · exact absurd ((routeFlagHit_iff hOCH).mp hq) hNe
        · simpa using hq
      simp only [hfh, Bool.false_or, Bool.false_eq_true, if_false, Bool.or_false]
      cases hlh : (foundUpdate chain v s).lhHit with
      | true =>
        simp only [if_true]
        refine ⟨(foundUpdate chain v s).strat, List.getElem?_set_self hlen, huid, husg2, ?_,
          by trivial⟩
        rw [hufl, hfh]
        simp
      | false =>
        simp only [Bool.false_eq_true, if_false]
        exact ⟨s, hg0, rfl, rfl, by trivial, by trivial⟩
  · intro hOCH
    have hfh : (foundUpdate chain v s).flagHit = false := by
      rw [hflagHit, routeFlagHit_false_chain hOCH (onChainHarvest_false hOCH)]
    simp only [hfh, Bool.false_or, Bool.false_eq_true, if_false, Bool.or_false]
    cases hlh : (foundUpdate chain v s).lhHit with
    | true =>
      simp only [if_true]
      refine ⟨(foundUpdate chain v s).strat, List.getElem?_set_self hlen, huid, husg2, ?_,
        by trivial⟩
      rw [hufl, hfh]
      simp
    | false =>
      simp only [Bool.false_eq_true, if_false]
      exact ⟨s, hg0, rfl, rfl, by trivial, by trivial⟩

end Cowllector

namespace Cowllector

theorem syncVault_route_push (chain : IChain) (st : SyncState) (v : IVault)
    (hch : v.chain = chain.id) (hact : isInactiveStatus v.status = false)
    (hf : findStrat v st.strats = none) :
    (syncVault chain st v).strats[st.strats.length]? =
      some (some (pushedEntry chain v)) ∧
    (pushedEntry chain v).noOnChainHrvst =
      (if onChainHarvest chain v.earnedToken then none
       else if chain.hasOnChainHarvesting then some true else none) ∧
    (syncVault chain st v).hits = hitsAdd st.hits v.id HitType.added := by
  rw [syncVault_push_eq hch hf hact]
  refine ⟨?_, ?_, rfl⟩
  · simp
  · obtain ⟨_, _, _, _, _, _, hfl⟩ := pushedEntry_fields chain v
    exact hfl

/-- C4 (amended): on a chain that supports on-chain harvesting, after the
reconciler processes an active vault whose earnedToken is deny-listed, the
array holds an entry for that vault's `(id, strategy)` with
`noOnChainHrvst = true` — the vault is never routed on-chain.  The frozen
claim quantified over every persisted entry and fails: a stale entry
(matched by no vault because its strategy reference migrated) keeps a
false flag even with a deny-listed token and survives the sweep — see the
counterexample theorem. -/
theorem syncVault_denied (chain : IChain) (st : SyncState) (v : IVault)
    (hOCH : chain.hasOnChainHarvesting = true)
    (hdeny : chain.denyList.contains v.earnedToken = true)
    (hch : v.chain = chain.id) (hact : isInactiveStatus v.status = false) :
    ∃ (i : Nat) (s2 : IStratToHrvst),
      (syncVault chain st v).strats[i]? = some (some s2) ∧
      s2.id = v.id ∧ s2.strategy = v.strategy ∧ s2.noOnChainHrvst = some true := by
  have hE : onChainHarvest chain v.earnedToken = false := by
    simp only [onChainHarvest, hdeny]
    simp
  cases hf : findStrat v st.strats with
  | none =>
    obtain ⟨hslot, hflag, _⟩ := syncVault_route_push chain st v hch hact hf
    obtain ⟨hpid, _, _, _, hpsg, _, _⟩ := pushedEntry_fields chain v
    refine ⟨st.strats.length, pushedEntry chain v, hslot, hpid, hpsg, ?_⟩
    rw [hflag, hE]
    simp [hOCH]
  | some p =>
    obtain ⟨i, s⟩ := p
    obtain ⟨hg0, hsg0, hid0⟩ := findStrat_some hf
    have h := (syncVault_route_found chain st v hch hact i s hf).1 hOCH
    by_cases hEq : onChainHarvest chain v.earnedToken = truthy s.noOnChainHrvst
    · obtain ⟨s2, hslot, hsid, hssg, hflag, _, _⟩ := h.1 hEq
      refine ⟨i, s2, hslot, by rw [hsid, ← hid0], by rw [hssg, ← hsg0], ?_⟩
      rw [hflag, hE]
      simp
    · obtain ⟨s2, hslot, hsid, hssg, hflag, _⟩ := h.2 hEq
      have htr : truthy s.noOnChainHrvst = true := by
        rw [hE] at hEq
        cases htf : truthy s.noOnChainHrvst
        · exact absurd htf.symm hEq
        · rfl
      have hsome : s.noOnChainHrvst = some true := by
        cases hsf : s.noOnChainHrvst with
        | none => rw [hsf] at htr; simp [truthy] at htr
        | some b =>
          rw [hsf] at htr
          simp only [truthy, Option.getD] at htr
          rw [htr]
      refine ⟨i, s2, hslot, by rw [hsid, ← hid0], by rw [hssg, ← hsg0], ?_⟩
      rw [hflag, hsome]

end Cowllector

namespace Cowllector

theorem runCore_strats_eq (chains : List IChain) (gasOk : IChain → Bool)
    (vaults : List IVault) (strats0 : List IStratToHrvst) :
    (runCore chains gasOk vaults strats0).strats =
      (sweep (runChains gasOk vaults chains
          { strats := strats0.map some, encountered := [], hits := [],
            dirty := false }).encountered
        (runChains gasOk vaults chains
          { strats := strats0.map some, encountered := [], hits := [],
            dirty := false }).strats
        (runChains gasOk vaults chains
          { strats := strats0.map some, encountered := [], hits := [],
            dirty := false }).hits).1 := rfl

theorem runCore_hits_eq (chains : List IChain) (gasOk : IChain → Bool)
    (vaults : List IVault) (strats0 : List IStratToHrvst) :
    (runCore chains gasOk vaults strats0).hits =
      (sweep (runChains gasOk vaults chains
          { strats := strats0.map some, encountered := [], hits := [],
            dirty := false }).encountered
        (runChains gasOk vaults chains
          { strats := strats0.map some, encountered := [], hits := [],
            dirty := false }).strats
        (runChains gasOk vaults chains
          { strats := strats0.map some, encountered := [], hits := [],
            dirty := false }).hits).2 := rfl

theorem persistedAfter_cases (chains : List IChain) (gasOk : IChain → Bool)
    (vaults : List IVault) (strats0 : List IStratToHrvst) :
    persistedAfter strats0 (runCore chains gasOk vaults strats0) = strats0 ∨
    persistedAfter strats0 (runCore chains gasOk vaults strats0) =
      ((runCore chains gasOk vaults strats0).strats).filterMap id := by
  by_cases hd : (runChains gasOk vaults chains
      { strats := strats0.map some, encountered := [], hits := [],
        dirty := false }).dirty = true
  · right
    have hfile : (runCore chains gasOk vaults strats0).stratFile =
        some (((runCore chains gasOk vaults strats0).strats).filterMap id) := by
      show (if (runChains gasOk vaults chains
          { strats := strats0.map some, encountered := [], hits := [],
            dirty := false }).dirty = true then _ else _) = _
      rw [if_pos hd]
      rfl
    unfold persistedAfter
    rw [hfile]
    rfl
  · left
    have hfile : (runCore chains gasOk vaults strats0).stratFile = none := by
      show (if (runChains gasOk vaults chains
          { strats := strats0.map some, encountered := [], hits := [],
            dirty := false }).dirty = true then _ else _) = _
      rw [if_neg hd]
    unfold persistedAfter
    rw [hfile]
    rfl

end Cowllector

namespace Cowllector

theorem denseUniq_singleton (e : IStratToHrvst) : denseUniq [e] := by
  intro i j a b hi hj _ _
  have h1 : i < 1 := by simpa using (List.getElem?_eq_some.mp hi).1
  have h2 : j < 1 := by simpa using (List.getElem?_eq_some.mp hj).1
  omega

/-- C1 (amended): starting from a persisted list holding at most one entry
per `(id, strategy)` pair, the list persisted after a full coordinator run
again holds at most one entry per `(id, strategy)` pair.  The claim's
`(chain, id)` key does not hold: matching is by `(strategy, id)`, so a
vault whose strategy reference migrated adds a fresh entry while the stale
same-id entry survives the decommission sweep (its id was encountered via
the new entry), leaving two entries that share `(chain, id)` — see the
counterexample theorem. -/
theorem run_unique_per_id_strategy (chains : List IChain) (gasOk : IChain → Bool)
    (vaults : List IVault) (strats0 : List IStratToHrvst)
    (H : denseUniq strats0) :
    denseUniq (persistedAfter strats0 (runCore chains gasOk vaults strats0)) := by
  rcases persistedAfter_cases chains gasOk vaults strats0 with he | he
  · rw [he]; exact H
  · rw [he, runCore_strats_eq]
    exact denseUniq_filterMap
      (sweep_optUniq (runChains_optUniq gasOk vaults chains _ (optUniq_map_some H)))

/-- C1 counterexample: with prior entry `eDup` (strategy `0xA`) and its
vault now reporting strategy `0xB`, the run persists two distinct entries
sharing `(chain, id) = (bsc, v)`. -/
theorem run_dup_chain_id_cx :
    (runCore beefyChains (fun _ => false) [vDup] [eDup]).stratFile =
      some [eDup, eDupNew] ∧
    eDup.chain = eDupNew.chain ∧ eDup.id = eDupNew.id ∧ ¬ eDup = eDupNew := by
  decide

/-- C1 witness: the amended theorem applied to a concrete one-entry list. -/
theorem run_unique_per_id_strategy_witness :
    denseUniq (persistedAfter [eGone]
      (runCore beefyChains (fun _ => false) [vLater] [eGone])) :=
  run_unique_per_id_strategy beefyChains (fun _ => false) [vLater] [eGone]
    (denseUniq_singleton eGone)

/-- C3 (amended): after all chain reconcilers complete, an id is in the
encountered set exactly when some vault record of this run's catalog is
active (status neither `eol` nor `paused`) with that id AND its `chain`
field names one of the configured chains.  The claim as frozen omits the
configured-chain restriction and is refuted by a vault on the commented-out
chain `aurora` — see the counterexample theorem. -/
theorem runCore_encountered_iff (chains : List IChain) (gasOk : IChain → Bool)
    (vaults : List IVault) (strats0 : List IStratToHrvst) (a : String) :
    a ∈ (runCore chains gasOk vaults strats0).encountered ↔
      activeIdOn chains vaults a := by
  have he : (runCore chains gasOk vaults strats0).encountered =
      (runChains gasOk vaults chains
        { strats := strats0.map some, encountered := [], hits := [],
          dirty := false }).encountered := rfl
  rw [he, runChains_encountered]
  constructor
  · rintro (h | ⟨v, hv, hid, hact, c, hc, hch⟩)
    · simp at h
    · exact ⟨v, hv, hid.symm, hact, c, hc, hch⟩
  · rintro ⟨v, hv, hid, hact, c, hc, hch⟩
    exact Or.inr ⟨v, hv, hid.symm, hact, c, hc, hch⟩

/-- C3 counterexample: an active vault on chain `aurora` (absent from the
configured chain table) is never encountered, so the encountered set is
not the set of all active vault ids. -/
theorem runCore_encountered_cx :
    isInactiveStatus vAurora.status = false ∧
    (runCore beefyChains (fun _ => false) [vAurora] []).encountered = [] ∧
    ¬ (vAurora.id ∈ (runCore beefyChains (fun _ => false) [vAurora] []).encountered ↔
        ∃ v, v ∈ [vAurora] ∧ v.id = vAurora.id ∧
          isInactiveStatus v.status = false) := by
  decide

/-- C3 witness: a vault on the configured chain `c` is encountered. -/
theorem runCore_encountered_witness :
    "w" ∈ (runCore [cChain] (fun _ => false) [vOff] []).encountered :=
  (runCore_encountered_iff [cChain] (fun _ => false) [vOff] [] "w").mpr
    ⟨vOff, by simp, rfl, by decide, cChain, by simp, rfl⟩

/-- C7 (confirmed): an entry surviving a run in place (entries are only
mutated in place, appended, or tombstoned, so slot positions identify
entries) keeps its id and chain and never loses lastHarvest progress; and
one sync step overwrites a matched entry's lastHarvest only when the
vault's value strictly exceeds it, writing exactly the vault's value. -/
theorem run_lastHarvest_mono :
    (∀ (chains : List IChain) (gasOk : IChain → Bool) (vaults : List IVault)
       (strats0 : List IStratToHrvst) (i : Nat) (e e2 : IStratToHrvst),
       strats0[i]? = some e →
       (runCore chains gasOk vaults strats0).strats[i]? = some (some e2) →
       e.id = e2.id ∧ e.chain = e2.chain ∧ e.lastHarvest ≤ e2.lastHarvest) ∧
    (∀ (chain : IChain) (st : SyncState) (v : IVault) (i : Nat)
       (s s2 : IStratToHrvst),
       st.strats[i]? = some (some s) →
       (syncVault chain st v).strats[i]? = some (some s2) →
       ¬ s2.lastHarvest = s.lastHarvest →
       s.lastHarvest < v.lastHarvest ∧ s2.lastHarvest = v.lastHarvest) := by
  constructor
  · intro chains gasOk vaults strats0 i e e2 h0 hout
    rw [runCore_strats_eq] at hout
    have hr := sweep_slots hout
    have hmono := runChains_slotsMono gasOk vaults chains
      { strats := strats0.map some, encountered := [], hits := [], dirty := false }
    have hlen : i < strats0.length := (List.getElem?_eq_some.mp h0).1
    obtain ⟨s, hs, hid, hch, hle⟩ := hmono.2 i e2 (by simpa using hlen) hr
    have hse : (strats0.map some)[i]? = some (some e) := by
      rw [List.getElem?_map, h0]
      rfl
    have : s = e := by
      have := hs.symm.trans hse
      exact Option.some.inj (Option.some.inj this)
    subst this
    exact ⟨hid, hch, hle⟩
  · intro chain st v i s s2 hin hout hne
    exact syncVault_lh_overwrite hin hout hne

/-- C7 witness: a matched vault reporting a later harvest bumps the entry
from 0 to 7. -/
theorem run_lastHarvest_mono_witness :
    eGone.id = "x" ∧ (0 : Int) ≤ 7 ∧
    (runCore beefyChains (fun _ => false) [vLater] [eGone]).strats[0]? =
      some (some { eGone with lastHarvest := 7 }) ∧
    (eGone.id = { eGone with lastHarvest := 7 }.id ∧
     eGone.chain = { eGone with lastHarvest := 7 }.chain ∧
     eGone.lastHarvest ≤ { eGone with lastHarvest := 7 }.lastHarvest) := by
  refine ⟨rfl, by decide, by decide, ?_⟩
  exact run_lastHarvest_mono.1 beefyChains (fun _ => false) [vLater] [eGone] 0 eGone
    { eGone with lastHarvest := 7 } (by decide) (by decide)

end Cowllector

namespace Cowllector

/-- C9 (confirmed): a pass started with a cleared dirty flag returns true
exactly when some step of the pass changed the shared strategy array
(entry added, tombstoned, or a field overwritten — `syncMutates` records
exactly the steps whose write changed the array); in particular a false
return leaves the array exactly as it was. -/
theorem SyncVaults_dirty_iff (chain : IChain) (vaults : List IVault)
    (st : SyncState) (h0 : st.dirty = false) :
    (SyncVaults chain vaults st).dirty = syncMutates chain st vaults ∧
    (syncMutates chain st vaults = false →
      (SyncVaults chain vaults st).strats = st.strats) := by
  constructor
  · rw [SyncVaults_dirty, h0]
    simp
  · exact SyncVaults_strats_frame chain vaults st

/-- C9 witness: a pass over a catalog that matches the tracked entry
exactly mutates nothing, returns false, and leaves the array unchanged. -/
theorem SyncVaults_dirty_iff_witness :
    (SyncVaults cChain [vOff] stOff).dirty = syncMutates cChain stOff [vOff] ∧
    (SyncVaults cChain [vOff] stOff).strats = stOff.strats := by
  have h := SyncVaults_dirty_iff cChain [vOff] stOff (by decide)
  exact ⟨h.1, h.2 (by decide)⟩

/-- C10 (confirmed): `Hits.add` with a falsy (empty-string) id leaves the
hit log unchanged for every change kind, and consequently every record of
the hit log serialized at the end of a run has a non-empty id. -/
theorem hits_no_empty_records :
    (∀ (h : List (String × HitTypes)) (t : HitType), hitsAdd h "" t = h) ∧
    (∀ (chains : List IChain) (gasOk : IChain → Bool) (vaults : List IVault)
       (strats0 : List IStratToHrvst),
       ∀ p ∈ (runCore chains gasOk vaults strats0).hits, ¬ p.1 = "") := by
  refine ⟨hitsAdd_empty_id, ?_⟩
  intro chains gasOk vaults strats0 p hp
  rw [runCore_hits_eq] at hp
  refine sweep_hits_clean _ _ _ ?_ p hp
  exact runChains_hits_clean gasOk vaults chains
    { strats := strats0.map some, encountered := [], hits := [], dirty := false }
    (by intro q hq; simp at hq)

/-- C10 witness: the run that logs the decommission of `eGone` has only
non-empty ids in its log. -/
theorem hits_no_empty_records_witness :
    hitsAdd [] "" HitType.added = [] ∧ ¬ ("x" : String) = "" := by
  refine ⟨hits_no_empty_records.1 [] HitType.added, ?_⟩
  exact hits_no_empty_records.2 [] (fun _ => false) [] [eGone]
    ("x", HitTypes.one HitType.removedDecomissioned) (by decide)

/-- C8 (confirmed): a failed catalog fetch aborts the run before any chain
processing with no files written; a strategy-list load failing with
resource-not-found proceeds exactly as a load of the empty list; any other
load failure aborts with no files written. -/
theorem mainRun_error_handling :
    (∀ (chains : List IChain) (gasOk : IChain → Bool)
       (loaded : Except LoadError (List IStratToHrvst)) (e : Unit),
       mainRun chains gasOk (Except.error e) loaded = none) ∧
    (∀ (chains : List IChain) (gasOk : IChain → Bool) (vaults : List IVault),
       mainRun chains gasOk (Except.ok vaults) (Except.error LoadError.other) =
         none) ∧
    (∀ (chains : List IChain) (gasOk : IChain → Bool) (vaults : List IVault),
       mainRun chains gasOk (Except.ok vaults)
           (Except.error LoadError.moduleNotFound) =
         mainRun chains gasOk (Except.ok vaults) (Except.ok [])) :=
  ⟨fun _ _ _ _ => rfl, fun _ _ _ => rfl, fun _ _ _ => rfl⟩

/-- C5 (code bug): the decommission sweep never sets the dirty flag, so a
run whose only change is a decommission logs it but does not persist the
pruned list; the second run over the unchanged catalog then writes the
very same non-empty change log again, refuting idempotence. -/
theorem decommission_not_persisted_relogged :
    (runCore beefyChains (fun _ => false) [] [eGone]).changeLogFile =
      some [("x", HitTypes.one HitType.removedDecomissioned)] ∧
    (runCore beefyChains (fun _ => false) [] [eGone]).stratFile = none ∧
    (runCore beefyChains (fun _ => false) []
        (persistedAfter [eGone]
          (runCore beefyChains (fun _ => false) [] [eGone]))).changeLogFile =
      some [("x", HitTypes.one HitType.removedDecomissioned)] := by
  decide

/-- C6 (amended): the sweep tombstones every surviving entry whose id is
not in the encountered set, and records `removed, decomissioned` for it
whenever its id is non-empty (an empty-id entry is removed silently, since
`Hits.add` drops falsy ids — see the counterexample theorem); every
surviving entry whose id is in the encountered set is kept unchanged. -/
theorem sweep_decommission (enc : List String) (l : List (Option IStratToHrvst))
    (h : List (String × HitTypes)) (i : Nat) (s : IStratToHrvst)
    (hg : l[i]? = some (some s)) :
    (¬ s.id ∈ enc → (sweep enc l h).1[i]? = some none ∧
      (¬ s.id = "" →
        hitsHas (sweep enc l h).2 s.id HitType.removedDecomissioned = true)) ∧
    (s.id ∈ enc → (sweep enc l h).1[i]? = some (some s)) :=
  ⟨(sweep_removes hg).2, (sweep_removes hg).1⟩

/-- C6 counterexample: an entry with an empty id is removed by the sweep
but no `removed, decomissioned` record is logged for it. -/
theorem sweep_empty_id_cx :
    (sweep [] [some eEmptyId] []).1[0]? = some none ∧
    hitsHas (sweep [] [some eEmptyId] []).2 eEmptyId.id
      HitType.removedDecomissioned = false ∧
    (sweep [] [some eEmptyId] []).2 = [] := by
  decide

/-- C6 witness: the decommissioned entry `eGone` is removed and logged. -/
theorem sweep_decommission_witness :
    (sweep [] [some eGone] []).1[0]? = some none ∧
    hitsHas (sweep [] [some eGone] []).2 eGone.id
      HitType.removedDecomissioned = true := by
  have h := (sweep_decommission [] [some eGone] [] 0 eGone (by decide)).1 (by decide)
  exact ⟨h.1, h.2 (by decide)⟩

end Cowllector

namespace Cowllector

/-- C2 (amended): let eligibility E be `onChainHarvest` (chain supports
on-chain harvesting AND the vault's earnedToken is not deny-listed).  For
an active vault on its chain: on a chain WITH on-chain harvesting, when E
disagrees with the inverse of the matched entry's `noOnChainHrvst` flag
(equivalently, E equals the flag's truthiness), the flag is overwritten
with `!E`, the pass is marked dirty and `on-chain-harvest switch` is
logged; on agreement flag and log are untouched.  A newly created entry
has its flag set silently (`some true` exactly when the chain supports
on-chain harvesting and the token is denied), the log receiving only
`added`.  The frozen claim's "this holds for every chain, including
chains whose config has hasOnChainHarvesting false" fails: there the
guard short-circuits and the flag is never written even though
eligibility (false) disagrees with the inverse of an unset flag — see
the counterexample theorem. -/
theorem syncVault_routing_flag (chain : IChain) (st : SyncState) (v : IVault)
    (hch : v.chain = chain.id) (hact : isInactiveStatus v.status = false) :
    (∀ (i : Nat) (s : IStratToHrvst), findStrat v st.strats = some (i, s) →
      (chain.hasOnChainHarvesting = true →
        (onChainHarvest chain v.earnedToken = truthy s.noOnChainHrvst →
          ∃ s2, (syncVault chain st v).strats[i]? = some (some s2) ∧
            s2.id = s.id ∧ s2.strategy = s.strategy ∧
            s2.noOnChainHrvst = some (!(onChainHarvest chain v.earnedToken)) ∧
            (syncVault chain st v).dirty = true ∧
            (syncVault chain st v).hits =
              hitsAdd st.hits v.id HitType.onChainHarvestSwitch) ∧
        (¬ onChainHarvest chain v.earnedToken = truthy s.noOnChainHrvst →
          ∃ s2, (syncVault chain st v).strats[i]? = some (some s2) ∧
            s2.id = s.id ∧ s2.strategy = s.strategy ∧
            s2.noOnChainHrvst = s.noOnChainHrvst ∧
            (syncVault chain st v).hits = st.hits)) ∧
      (chain.hasOnChainHarvesting = false →
        ∃ s2, (syncVault chain st v).strats[i]? = some (some s2) ∧
          s2.id = s.id ∧ s2.strategy = s.strategy ∧
          s2.noOnChainHrvst = s.noOnChainHrvst ∧
          (syncVault chain st v).hits = st.hits)) ∧
    (findStrat v st.strats = none →
      (syncVault chain st v).strats[st.strats.length]? =
        some (some (pushedEntry chain v)) ∧
      (pushedEntry chain v).noOnChainHrvst =
        (if onChainHarvest chain v.earnedToken then none
         else if chain.hasOnChainHarvesting then some true else none) ∧
      (syncVault chain st v).hits = hitsAdd st.hits v.id HitType.added) :=
  ⟨fun i s hf => syncVault_route_found chain st v hch hact i s hf,
   fun hf => syncVault_route_push chain st v hch hact hf⟩

/-- C2 counterexample: on chain `c` (no on-chain harvesting) the matched
entry's flag is unset, so eligibility (false) disagrees with the inverted
flag (true), yet the step leaves the flag unset, clears nothing, sets no
dirty flag and logs nothing. -/
theorem syncVault_routing_flag_cx :
    onChainHarvest cChain vOff.earnedToken = false ∧
    truthy eOff.noOnChainHrvst = false ∧
    syncVault cChain stOff vOff =
      { strats := [some eOff], encountered := ["w"], hits := [], dirty := false,
        added := 0, removed := 0, notOCH := [eOff] } := by
  decide

/-- C2 witness: on `gChain` the entry `eSwitch` (flag true) matched by a
vault with an allowed token flips to off, dirty, and logged. -/
theorem syncVault_routing_flag_witness :
    (syncVault gChain stSwitch vSwitch).dirty = true ∧
    (syncVault gChain stSwitch vSwitch).hits =
      hitsAdd stSwitch.hits vSwitch.id HitType.onChainHarvestSwitch := by
  obtain ⟨s2, _, _, _, _, hdirty, hhits⟩ :=
    (((syncVault_routing_flag gChain stSwitch vSwitch (by decide) (by decide)).1
        0 eSwitch (by decide)).1 (by decide)).1 (by decide)
  exact ⟨hdirty, hhits⟩

/-- C4 counterexample: the stale entry `eDenied` (deny-listed token `T`,
flag false) is not matched by the migrated vault, survives the sweep via
its encountered id, and is persisted still carrying
`noOnChainHrvst = false` on a chain that supports on-chain harvesting. -/
theorem syncVault_denied_cx :
    gChain.hasOnChainHarvesting = true ∧
    gChain.denyList.contains eDenied.earnedToken = true ∧
    (runCore [gChain] (fun _ => false) [vMigrated] [eDenied]).stratFile =
      some [eDenied, eMigratedNew] ∧
    eDenied.noOnChainHrvst = some false := by
  decide

/-- C4 witness: processing the denied-token vault `vDenied` leaves an
entry for it whose flag is `some true`. -/
theorem syncVault_denied_witness :
    (syncVault gChain stSwitch vDenied).strats.any
      (fun os => match os with
        | some s2 => s2.id == vDenied.id && s2.noOnChainHrvst == some true
        | none => false) = true := by
  obtain ⟨i, s2, hslot, hid, hsg, hflag⟩ :=
    syncVault_denied gChain stSwitch vDenied (by decide) (by decide)
      (by decide) (by decide)
  refine List.any_eq_true.mpr ⟨some s2, List.getElem?_mem hslot, ?_⟩
  simp [hid, hflag]

end Cowllector
